import Mathlib

/-!
# Verification of the xbar-apps Central Limit Theorem engine

Shallow embedding of the simulation engine of the `xbar-apps` repository
(`apps/central-limit-theorem` standalone engine and
`shared/modules/stat-engine.js`), together with theorems settling the
frozen claims about its natural-language specification.

Conventions of the embedding:
* JavaScript numbers are modelled as exact rationals (`ℚ`); the only
  irrational operation in the engine is `Math.sqrt`, modelled by
  `Real.sqrt` at the point where it occurs.
* `NaN` results are modelled by `Option.none`, propagated explicitly.
* JS 32-bit integer/bitwise operations (`Math.imul`, `^`, `|`, `>>>`)
  are modelled on `ℕ` with explicit reduction `% 2^32`; this is exact
  because every JS coercion (`ToInt32`/`ToUint32`) reduces the number
  modulo `2^32` and all the operations used commute with that reduction.
* Mutating methods become functions `Engine → ... → Engine`;
  `performance.now()` and tick timestamps become explicit parameters.
-/

set_option maxRecDepth 8000

namespace Xbar

/-- Number of population / sample-tray columns (`const COLS = 60`). -/
def COLS : ℕ := 60

/-- Number of sampling-distribution bins (`const STAT_BINS = COLS`). -/
def STAT_BINS : ℕ := 60

/-- `clamp(x, a, b) { return Math.max(a, Math.min(b, x)); }` over `ℚ`. -/
def clampQ (x a b : ℚ) : ℚ := max a (min b x)

/-- The same clamp over `ℝ` (used where the clamped value comes from a
statistic that may involve `Math.sqrt`). -/
def clampR (x a b : ℝ) : ℝ := max a (min b x)

/-- Integer clamp, for clamping resolved bin indices. -/
def clampZ (x a b : ℤ) : ℤ := max a (min b x)

/-! ## Deterministic RNG (`rngMulberry32` / `MathUtils.createRNG`)

```js
function rngMulberry32(seed) {
    let t = seed >>> 0;
    return function () {
        t += 0x6D2B79F5;
        let r = Math.imul(t ^ (t >>> 15), 1 | t);
        r ^= r + Math.imul(r ^ (r >>> 7), 61 | r);
        return ((r ^ (r >>> 14)) >>> 0) / 4294967296;
    };
}
```
The closure state `t` is modelled reduced modulo `2^32` (the JS code keeps
the un-truncated double but every use passes through `ToInt32`/`ToUint32`,
so the stream is a function of `t % 2^32` only). -/

/-- `Math.imul`: 32-bit product; sign is irrelevant modulo `2^32`. -/
def jsImul (a b : ℕ) : ℕ := (a * b) % 2 ^ 32

/-- One step of the mulberry32 stream: new state and raw 32-bit output. -/
def mulberryStep (t : ℕ) : ℕ × ℕ :=
  let t1 := (t + 0x6D2B79F5) % 2 ^ 32
  let r1 := jsImul (Nat.xor t1 (t1 / 2 ^ 15)) (Nat.lor 1 t1)
  let r2 := Nat.xor r1 ((r1 + jsImul (Nat.xor r1 (r1 / 2 ^ 7)) (Nat.lor 61 r1)) % 2 ^ 32)
  (t1, Nat.xor r2 (r2 / 2 ^ 14) % 2 ^ 32)

/-- The value in `[0,1)` produced from state `t` (the `/ 4294967296`). -/
def mulberryVal (t : ℕ) : ℚ := ((mulberryStep t).2 : ℚ) / 4294967296

/-- RNG internal state after `n` draws starting from state `t`. -/
def rngStateAfter (t : ℕ) : ℕ → ℕ
  | 0 => t
  | n + 1 => (mulberryStep (rngStateAfter t n)).1

/-- The `n`-th value (0-based) of the stream created with state `t`. -/
def rngValAt (t : ℕ) (n : ℕ) : ℚ := mulberryVal (rngStateAfter t n)

theorem mulberry_out_lt (t : ℕ) : (mulberryStep t).2 < 2 ^ 32 := by
  have : 0 < 2 ^ 32 := by norm_num
  exact Nat.mod_lt _ this

theorem mulberryVal_nonneg (t : ℕ) : 0 ≤ mulberryVal t := by
  unfold mulberryVal
  positivity

theorem mulberryVal_lt_one (t : ℕ) : mulberryVal t < 1 := by
  unfold mulberryVal
  rw [div_lt_one (by norm_num)]
  exact_mod_cast lt_of_lt_of_le (mulberry_out_lt t) (by norm_num)

/-! ## Sampler (`Engine.sampleN` / `StatEngine.drawSample`)

```js
sampleN(n) {
    const rng = this.rng, weights = this.popCounts;
    let total = 0; for (let i = 0; i < COLS; i++) total += weights[i];
    const xs = new Array(n), cols = new Array(n);
    if (total === 0) {
        for (let i = 0; i < n; i++) { const col = Math.floor(rng() * COLS);
            cols[i] = col; xs[i] = (col + 0.5) / COLS; }
    } else {
        for (let i = 0; i < n; i++) { let target = rng() * total, acc = 0,
            chosen = COLS >> 1;
            for (let c = 0; c < COLS; c++) { acc += weights[c];
                if (target <= acc) { chosen = c; break; } }
            cols[i] = chosen; xs[i] = (chosen + 0.5) / COLS; }
    }
    return { xs, cols };
}
```
`StatEngine.drawSample` is the same algorithm (with `this.config.cols`).
-/

/-- Total population weight: `for (let i = 0; i < COLS; i++) total += weights[i]`. -/
def totalWeight (w : List ℕ) : ℕ :=
  (List.range COLS).foldl (fun a i => a + w.getD i 0) 0

/-- The inner `for (c …) { acc += weights[c]; if (target <= acc) break; }`
walk, with explicit fuel (the loop bound `COLS`); returns the bin at which
the loop broke, or `none` when it ran to the end without breaking. -/
def walkFind (w : List ℕ) (target : ℚ) : ℕ → ℕ → ℚ → Option ℕ
  | 0, _, _ => none
  | fuel + 1, c, acc =>
    let acc1 := acc + (w.getD c 0 : ℚ)
    if target ≤ acc1 then some c else walkFind w target fuel (c + 1) acc1

/-- The chosen bin of one weighted draw: the walk's result, defaulting to
the pre-set `chosen = COLS >> 1` when the loop never breaks. -/
def chooseBin (w : List ℕ) (target : ℚ) : ℕ :=
  (walkFind w target COLS 0 0).getD (COLS / 2)

/-- The column of one sampled element: `Math.floor(rng() * COLS)` when the
total weight is zero, else the weighted walk on `target = rng() * total`. -/
def sampleOneCol (w : List ℕ) (total : ℕ) (v : ℚ) : ℕ :=
  if total = 0 then ⌊v * (COLS : ℚ)⌋₊ else chooseBin w (v * total)

/-- `sampleN(n)`: draws `n` elements in order, threading the RNG state
(one draw per element); each element's value is the chosen column's
midpoint `(col + 0.5) / COLS`. Returns `(xs, cols, final rng state)`. -/
def sampleNFrom (w : List ℕ) (t : ℕ) : ℕ → List ℚ × List ℕ × ℕ
  | 0 => ([], [], t)
  | n + 1 =>
    let col := sampleOneCol w (totalWeight w) (mulberryVal t)
    let rest := sampleNFrom w (mulberryStep t).1 n
    (((col : ℚ) + 1 / 2) / COLS :: rest.1, col :: rest.2.1, rest.2.2)

/-! Specification-side description of the sampler (from the spec's words,
for the refinement claims C5/C10): cumulative weights and first-bin
selection. -/

/-- Cumulative weight of bins `0 .. k-1` (spec side). -/
def cumWeight (w : List ℕ) (k : ℕ) : ℚ :=
  ((List.range k).map (fun i => (w.getD i 0 : ℚ))).sum

/-- Modelled from the spec: "select the first bin (lowest index) at which
the running cumulative weight reaches or exceeds target", defaulting to
the middle column. -/
def specChooseBin (w : List ℕ) (target : ℚ) : ℕ :=
  ((List.range COLS).find? (fun c => target ≤ cumWeight w (c + 1))).getD (COLS / 2)

/-- Modelled from the spec: the column selected for one element — uniform
(`floor(rng·C)`) on total weight zero, else the inverse-CDF selection on
`target = rng·total`. -/
def specSampleCol (w : List ℕ) (v : ℚ) : ℕ :=
  if totalWeight w = 0 then ⌊v * (COLS : ℚ)⌋₊
  else specChooseBin w (v * (totalWeight w : ℚ))

theorem cumWeight_zero (w : List ℕ) : cumWeight w 0 = 0 := by
  simp [cumWeight]

theorem cumWeight_succ (w : List ℕ) (c : ℕ) :
    cumWeight w (c + 1) = cumWeight w c + (w.getD c 0 : ℚ) := by
  unfold cumWeight
  rw [List.range_succ, List.map_append, List.sum_append]
  simp

theorem walkFind_eq_find? (w : List ℕ) (target : ℚ) :
    ∀ (fuel c : ℕ),
      walkFind w target fuel c (cumWeight w c) =
        (List.range' c fuel).find? (fun i => target ≤ cumWeight w (i + 1)) := by
  intro fuel
  induction fuel with
  | zero => intro c; rfl
  | succ m ih =>
    intro c
    rw [List.range'_succ]
    show (if target ≤ cumWeight w c + (w.getD c 0 : ℚ) then some c
          else walkFind w target m (c + 1) (cumWeight w c + (w.getD c 0 : ℚ))) = _
    rw [← cumWeight_succ]
    by_cases h : target ≤ cumWeight w (c + 1)
    · rw [if_pos h, List.find?_cons_of_pos _ (by simpa using h)]
    · rw [if_neg h, List.find?_cons_of_neg _ (by simpa using h), ih (c + 1)]

theorem chooseBin_eq_spec (w : List ℕ) (target : ℚ) :
    chooseBin w target = specChooseBin w target := by
  unfold chooseBin specChooseBin
  rw [show walkFind w target COLS 0 0 = walkFind w target COLS 0 (cumWeight w 0) from by
      rw [cumWeight_zero]]
  rw [walkFind_eq_find? w target COLS 0, List.range_eq_range']

theorem chooseBin_lt (w : List ℕ) (target : ℚ) : chooseBin w target < COLS := by
  rw [chooseBin_eq_spec]
  unfold specChooseBin
  cases hfind : (List.range COLS).find? (fun c => target ≤ cumWeight w (c + 1)) with
  | none => simp [COLS]
  | some r =>
    have hr := List.mem_range.mp (List.mem_of_find?_eq_some hfind)
    simpa using hr

theorem sampleOneCol_lt (w : List ℕ) (total : ℕ) (v : ℚ)
    (h0 : 0 ≤ v) (h1 : v < 1) : sampleOneCol w total v < COLS := by
  unfold sampleOneCol
  split
  · have hC : (0 : ℚ) < (COLS : ℚ) := by norm_num [COLS]
    have : v * (COLS : ℚ) < (COLS : ℚ) := by
      calc v * (COLS : ℚ) < 1 * (COLS : ℚ) := mul_lt_mul_of_pos_right h1 hC
        _ = (COLS : ℚ) := one_mul _
    exact (Nat.floor_lt (by positivity)).mpr this
  · exact chooseBin_lt w _

theorem rngStateAfter_succ_left (t : ℕ) :
    ∀ n, rngStateAfter t (n + 1) = rngStateAfter (mulberryStep t).1 n := by
  intro n
  induction n with
  | zero => simp [rngStateAfter]
  | succ m ih =>
    have hstep : rngStateAfter t (m + 1 + 1) = (mulberryStep (rngStateAfter t (m + 1))).1 := by
      simp only [rngStateAfter]
    rw [hstep, ih]
    simp only [rngStateAfter]

theorem sampleNFrom_succ_xs (w : List ℕ) (t n : ℕ) :
    (sampleNFrom w t (n + 1)).1 =
      ((sampleOneCol w (totalWeight w) (mulberryVal t) : ℚ) + 1 / 2) / COLS ::
        (sampleNFrom w (mulberryStep t).1 n).1 := by
  simp only [sampleNFrom]

theorem sampleNFrom_succ_cols (w : List ℕ) (t n : ℕ) :
    (sampleNFrom w t (n + 1)).2.1 =
      sampleOneCol w (totalWeight w) (mulberryVal t) ::
        (sampleNFrom w (mulberryStep t).1 n).2.1 := by
  simp only [sampleNFrom]

theorem sampleNFrom_succ_state (w : List ℕ) (t n : ℕ) :
    (sampleNFrom w t (n + 1)).2.2 = (sampleNFrom w (mulberryStep t).1 n).2.2 := by
  simp only [sampleNFrom]

theorem sampleNFrom_shape (w : List ℕ) :
    ∀ (n t : ℕ), (sampleNFrom w t n).1.length = n ∧
      (sampleNFrom w t n).2.1.length = n ∧
      (sampleNFrom w t n).2.2 = rngStateAfter t n := by
  intro n
  induction n with
  | zero => intro t; exact ⟨rfl, rfl, rfl⟩
  | succ m ih =>
    intro t
    obtain ⟨h1, h2, h3⟩ := ih (mulberryStep t).1
    refine ⟨?_, ?_, ?_⟩
    · rw [sampleNFrom_succ_xs, List.length_cons, h1]
    · rw [sampleNFrom_succ_cols, List.length_cons, h2]
    · rw [sampleNFrom_succ_state, h3, rngStateAfter_succ_left]

theorem sampleNFrom_getD (w : List ℕ) :
    ∀ (n t i : ℕ), i < n →
      (sampleNFrom w t n).2.1.getD i 0 = specSampleCol w (rngValAt t i) ∧
      (sampleNFrom w t n).1.getD i 0 =
        (((sampleNFrom w t n).2.1.getD i 0 : ℚ) + 1 / 2) / COLS := by
  intro n
  induction n with
  | zero => intro t i hi; omega
  | succ m ih =>
    intro t i hi
    match i with
    | 0 =>
      rw [sampleNFrom_succ_xs, sampleNFrom_succ_cols, List.getD_cons_zero, List.getD_cons_zero]
      constructor
      · have hval : rngValAt t 0 = mulberryVal t := rfl
        rw [hval]
        unfold sampleOneCol specSampleCol
        by_cases h : totalWeight w = 0
        · rw [if_pos h, if_pos h]
        · rw [if_neg h, if_neg h, chooseBin_eq_spec]
      · rfl
    | j + 1 =>
      have hj : j < m := by omega
      obtain ⟨h1, h2⟩ := ih (mulberryStep t).1 j hj
      rw [sampleNFrom_succ_xs, sampleNFrom_succ_cols, List.getD_cons_succ, List.getD_cons_succ]
      constructor
      · rw [h1]
        unfold rngValAt
        simp only [rngStateAfter_succ_left]
      · exact h2

/-! ## Claim C5: the sampler refines its specification -/

/-- C5 (confirmed): `sampleN`/`drawSample` draws each of the `n` elements
with exactly one RNG draw, in order (element `i` uses the `i`-th stream
value and the final RNG state is the `n`-step state); the chosen column is
the uniform `floor(rng·C)` when the total weight is zero and otherwise the
first bin whose running cumulative weight reaches or exceeds
`target = rng·total`; the assigned value is the bin midpoint
`(col + 0.5)/C`. -/
theorem drawSample_spec (w : List ℕ) (t n i : ℕ) (hi : i < n) :
    (sampleNFrom w t n).1.length = n ∧
    (sampleNFrom w t n).2.1.length = n ∧
    (sampleNFrom w t n).2.2 = rngStateAfter t n ∧
    (sampleNFrom w t n).2.1.getD i 0 = specSampleCol w (rngValAt t i) ∧
    (sampleNFrom w t n).1.getD i 0 =
      (((sampleNFrom w t n).2.1.getD i 0 : ℚ) + 1 / 2) / COLS := by
  obtain ⟨h1, h2, h3⟩ := sampleNFrom_shape w n t
  obtain ⟨h4, h5⟩ := sampleNFrom_getD w n t i hi
  exact ⟨h1, h2, h3, h4, h5⟩

/-- Witness for `drawSample_spec`: one draw from state 7 over a
one-entry population. -/
theorem drawSample_spec_witness :
    0 < 1 ∧
    ((sampleNFrom [1] 7 1).1.length = 1 ∧
      (sampleNFrom [1] 7 1).2.1.length = 1 ∧
      (sampleNFrom [1] 7 1).2.2 = rngStateAfter 7 1 ∧
      (sampleNFrom [1] 7 1).2.1.getD 0 0 = specSampleCol [1] (rngValAt 7 0) ∧
      (sampleNFrom [1] 7 1).1.getD 0 0 =
        (((sampleNFrom [1] 7 1).2.1.getD 0 0 : ℚ) + 1 / 2) / COLS) :=
  ⟨Nat.zero_lt_one, drawSample_spec [1] 7 1 0 Nat.zero_lt_one⟩

/-! ## Claim C10: sampled columns are always in bounds -/

/-- C10 (confirmed): every column produced by the sampler is `< COLS`,
for every RNG state, every population histogram (including all-zero), and
including the walk's fall-through default (the middle column). -/
theorem drawSample_cols_lt (w : List ℕ) (t n c : ℕ)
    (hc : c ∈ (sampleNFrom w t n).2.1) : c < COLS := by
  induction n generalizing t with
  | zero => simp [sampleNFrom] at hc
  | succ m ih =>
    rw [sampleNFrom_succ_cols] at hc
    rcases List.mem_cons.mp hc with h | h
    · rw [h]
      exact sampleOneCol_lt w _ _ (mulberryVal_nonneg t) (mulberryVal_lt_one t)
    · exact ih (mulberryStep t).1 h

/-- Witness for `drawSample_cols_lt`: one draw from seed state 0 over the
empty (all-zero) population lands in column 15. -/
theorem drawSample_cols_lt_witness : 15 ∈ (sampleNFrom [] 0 1).2.1 ∧ 15 < COLS := by
  have htot : totalWeight ([] : List ℕ) = 0 := by decide
  have hstep : (mulberryStep 0).2 = 1144304738 := by decide
  have hcol : sampleOneCol [] (totalWeight []) (mulberryVal 0) = 15 := by
    rw [htot]
    unfold sampleOneCol
    rw [if_pos rfl]
    unfold mulberryVal
    rw [hstep]
    rw [show ((1144304738 : ℕ) : ℚ) / 4294967296 * ((COLS : ℕ) : ℚ) = 1144304738 * 60 / 4294967296
        from by norm_num [COLS]]
    rw [show ((1144304738 : ℚ) * 60 / 4294967296) = ((68658284280 : ℕ) : ℚ) / ((4294967296 : ℕ) : ℚ)
        from by norm_num]
    rw [Rat.natFloor_natCast_div_natCast]
  have hmem : (15 : ℕ) ∈ (sampleNFrom [] 0 1).2.1 := by
    rw [sampleNFrom_succ_cols, hcol]
    exact List.mem_cons_self _ _
  exact ⟨hmem, drawSample_cols_lt [] 0 1 15 hmem⟩

/-! ## Population summary statistics (`Engine.popStats` /
`StatEngine.getPopulationStats`)

```js
get popStats() {
    const pc = this.popCounts; let total = 0, mu = 0;
    for (let c = 0; c < COLS; c++) { const x = (c + 0.5) / COLS, w = pc[c];
        total += w; mu += w * x; }
    mu = total ? mu / total : 0.5; let s2 = 0;
    for (let c = 0; c < COLS; c++) { const x = (c + 0.5) / COLS, w = pc[c];
        s2 += w * (x - mu) * (x - mu); }
    const sdPop = total ? Math.sqrt(s2 / total) : 0;
    let medv = 0.5; if (total) { let acc = 0, half = total / 2;
        for (let c = 0; c < COLS; c++) { acc += pc[c];
            if (acc >= half) { medv = (c + 0.5) / COLS; break; } } }
    let greater = 0; for (let c = 0; c < COLS; c++) {
        const x = (c + 0.5) / COLS; if (x > this.threshold) greater += pc[c]; }
    const pthr = total ? greater / total : 0;
    return { mu, sd: sdPop, med: medv, pthr, total };
}
```
The median loop is the same accumulate-and-break walk as the sampler's
(`acc >= half` is `half ≤ acc`), so it is embedded with `walkFind`. -/

/-- Bin-center coordinate `x = (c + 0.5) / COLS`. -/
def binCenter (c : ℕ) : ℚ := ((c : ℚ) + 1 / 2) / COLS

/-- The accumulated `total` of the first loop, over `ℚ` as accumulated. -/
def popTotalQ (pc : List ℕ) : ℚ :=
  (List.range COLS).foldl (fun a c => a + (pc.getD c 0 : ℚ)) 0

/-- The accumulated `mu` numerator `Σ w·x` of the first loop. -/
def popMuSum (pc : List ℕ) : ℚ :=
  (List.range COLS).foldl (fun a c => a + (pc.getD c 0 : ℚ) * binCenter c) 0

/-- The result record of `popStats` / `getPopulationStats`. -/
structure PopStats where
  mu : ℚ
  sd : ℝ
  med : ℚ
  pthr : ℚ
  total : ℚ

noncomputable def popStats (pc : List ℕ) (threshold : ℚ) : PopStats :=
  let total := popTotalQ pc
  let mu := if total = 0 then 1 / 2 else popMuSum pc / total
  let s2 := (List.range COLS).foldl
    (fun a c => a + (pc.getD c 0 : ℚ) * (binCenter c - mu) ^ 2) 0
  let sdPop : ℝ := if total = 0 then 0 else Real.sqrt ((s2 / total : ℚ) : ℝ)
  let medv := if total = 0 then 1 / 2
    else
      match walkFind pc (total / 2) COLS 0 0 with
      | some c => binCenter c
      | none => 1 / 2
  let greater := (List.range COLS).foldl
    (fun a c => a + if threshold < binCenter c then (pc.getD c 0 : ℚ) else 0) 0
  let pthr := if total = 0 then 0 else greater / total
  { mu := mu, sd := sdPop, med := medv, pthr := pthr, total := total }

/-- Modelled from the spec: the weighted mean of bin-center values. -/
def specWMean (pc : List ℕ) : ℚ :=
  ((List.range COLS).map (fun c => (pc.getD c 0 : ℚ) * binCenter c)).sum /
    (totalWeight pc : ℚ)

/-- Modelled from the spec: population variance, denominator = total
weight (not total − 1). -/
def specPopVar (pc : List ℕ) : ℚ :=
  ((List.range COLS).map
    (fun c => (pc.getD c 0 : ℚ) * (binCenter c - specWMean pc) ^ 2)).sum /
    (totalWeight pc : ℚ)

/-- Modelled from the spec: the weighted median — the center of the first
bin at which the cumulative weight reaches or exceeds half of the total. -/
def specWMedian (pc : List ℕ) : ℚ :=
  match (List.range COLS).find? (fun c => (totalWeight pc : ℚ) / 2 ≤ cumWeight pc (c + 1)) with
  | some c => binCenter c
  | none => 1 / 2

/-- Modelled from the spec: the proportion of weight in bins whose center
is strictly greater than the threshold. -/
def specPropAbove (pc : List ℕ) (thr : ℚ) : ℚ :=
  (((List.range COLS).filter (fun c => thr < binCenter c)).map
    (fun c => (pc.getD c 0 : ℚ))).sum / (totalWeight pc : ℚ)

theorem foldl_add_map {α : Type} (f : α → ℚ) :
    ∀ (l : List α) (a : ℚ), l.foldl (fun s i => s + f i) a = a + (l.map f).sum := by
  intro l
  induction l with
  | nil => intro a; simp
  | cons x xs ih =>
    intro a
    simp only [List.foldl_cons, List.map_cons, List.sum_cons, ih]
    ring

theorem popTotalQ_cast (pc : List ℕ) : popTotalQ pc = (totalWeight pc : ℚ) := by
  unfold popTotalQ totalWeight
  have aux : ∀ (l : List ℕ) (a : ℕ),
      ((l.foldl (fun s i => s + pc.getD i 0) a : ℕ) : ℚ) =
        l.foldl (fun s i => s + (pc.getD i 0 : ℚ)) (a : ℚ) := by
    intro l
    induction l with
    | nil => intro a; simp
    | cons x xs ih =>
      intro a
      simp only [List.foldl_cons, ih]
      push_cast
      rfl
  rw [aux]
  norm_num

theorem sum_map_ite (p : ℕ → Prop) [DecidablePred p] (f : ℕ → ℚ) :
    ∀ l : List ℕ,
      (l.map (fun i => if p i then f i else 0)).sum =
        ((l.filter (fun i => p i)).map f).sum := by
  intro l
  induction l with
  | nil => simp
  | cons x xs ih =>
    by_cases h : p x
    · simp [h, ih]
    · simp [h, ih]

/-! ## Claim C9: population summary statistics -/

/-- C9 (confirmed): for positive total weight, `popStats` returns the
weighted mean of bin centers; the population standard deviation (square
root of the weighted variance with denominator = total weight); the
weighted median (center of the first bin whose cumulative weight reaches
half the total); and the proportion of weight strictly above the
threshold. -/
theorem popStats_spec (pc : List ℕ) (thr : ℚ) (htot : 0 < totalWeight pc) :
    (popStats pc thr).mu = specWMean pc ∧
    (popStats pc thr).sd = Real.sqrt ((specPopVar pc : ℚ) : ℝ) ∧
    (popStats pc thr).med = specWMedian pc ∧
    (popStats pc thr).pthr = specPropAbove pc thr ∧
    (popStats pc thr).total = (totalWeight pc : ℚ) := by
  have htq : popTotalQ pc = (totalWeight pc : ℚ) := popTotalQ_cast pc
  have hne : popTotalQ pc ≠ 0 := by
    rw [htq]
    exact_mod_cast htot.ne'
  have hmu : (if popTotalQ pc = 0 then (1 : ℚ) / 2 else popMuSum pc / popTotalQ pc) =
      specWMean pc := by
    rw [if_neg hne]
    unfold popMuSum specWMean
    rw [foldl_add_map, zero_add, htq]
  refine ⟨?_, ?_, ?_, ?_, ?_⟩
  · show (if popTotalQ pc = 0 then (1 : ℚ) / 2 else popMuSum pc / popTotalQ pc) = specWMean pc
    exact hmu
  · show (if popTotalQ pc = 0 then (0 : ℝ) else Real.sqrt _) = _
    rw [if_neg hne]
    congr 1
    unfold specPopVar
    rw [← hmu]
    rw [foldl_add_map, zero_add, htq]
  · show (if popTotalQ pc = 0 then (1 : ℚ) / 2 else _) = specWMedian pc
    rw [if_neg hne]
    unfold specWMedian
    rw [show walkFind pc (popTotalQ pc / 2) COLS 0 0 =
        walkFind pc (popTotalQ pc / 2) COLS 0 (cumWeight pc 0) from by rw [cumWeight_zero]]
    rw [walkFind_eq_find?, List.range_eq_range', htq]
  · show (if popTotalQ pc = 0 then (0 : ℚ) else _) = specPropAbove pc thr
    rw [if_neg hne]
    unfold specPropAbove
    rw [foldl_add_map, zero_add, htq, sum_map_ite]
  · show popTotalQ pc = (totalWeight pc : ℚ)
    exact htq

/-- Witness for `popStats_spec` on the two-bin population `[2, 1]`. -/
theorem popStats_spec_witness :
    0 < totalWeight [2, 1] ∧
    ((popStats [2, 1] (1 / 2)).mu = specWMean [2, 1] ∧
      (popStats [2, 1] (1 / 2)).sd = Real.sqrt ((specPopVar [2, 1] : ℚ) : ℝ) ∧
      (popStats [2, 1] (1 / 2)).med = specWMedian [2, 1] ∧
      (popStats [2, 1] (1 / 2)).pthr = specPropAbove [2, 1] (1 / 2) ∧
      (popStats [2, 1] (1 / 2)).total = (totalWeight [2, 1] : ℚ)) :=
  ⟨by decide, popStats_spec [2, 1] (1 / 2) (by decide)⟩

/-! ## Statistic calculator (`mean`, `med`, `varianceUnbiased`, `robustSD`,
`Engine.computeStat` / `StatEngine.computeStatistic`)

`MathUtils.standardDeviation(array, true)` in `stat-engine.js` is
line-for-line the composition `robustSD ∘ varianceUnbiased` of the
standalone engine; one embedding covers both. -/

/-- `mean(a) { return a.length ? a.reduce((s,v) => s+v, 0)/a.length : NaN; }` -/
def meanQ (a : List ℚ) : Option ℚ :=
  if a = [] then none else some (a.sum / a.length)

/-- `med(a)`: `NaN` on empty, else sorted middle element, or the average of
the two middle elements for even length (`m = b.length >> 1`). -/
def medQ (a : List ℚ) : Option ℚ :=
  if a = [] then none
  else
    let b := a.mergeSort (fun x y => decide (x ≤ y))
    let m := a.length / 2
    some (if a.length % 2 = 1 then b.getD m 0 else (b.getD (m - 1) 0 + b.getD m 0) / 2)

/-- `varianceUnbiased(a)`: `NaN` for `n < 2`, else `Σ (aᵢ-m)² / (n-1)`. -/
def varianceUnbiasedQ (a : List ℚ) : Option ℚ :=
  if a.length < 2 then none
  else
    match meanQ a with
    | none => none
    | some m => some ((a.map (fun x => (x - m) ^ 2)).sum / ((a.length : ℚ) - 1))

/-- `robustSD(a) { const v = varianceUnbiased(a);
return isFinite(v) && v >= 0 ? Math.sqrt(v) : 0; }`
(`isFinite(NaN)` is false, so an undefined variance yields `0`). -/
noncomputable def robustSD (a : List ℚ) : ℝ :=
  match varianceUnbiasedQ a with
  | none => 0
  | some v => if 0 ≤ v then Real.sqrt v else 0

/-- Fraction of values strictly above the threshold
(`xs.filter((v) => v > this.threshold).length / xs.length`). -/
def propAboveQ (thr : ℚ) (a : List ℚ) : ℚ :=
  ((a.filter (fun v => thr < v)).length : ℚ) / a.length

/-- The four supported statistics (string keys in the source). -/
inductive Stat
  | mean
  | median
  | sd
  | proportion
  deriving DecidableEq, Repr

/-- Statistic domain: `statDomain() { return this.statistic === "sd"
? { min: 0, max: 0.5 } : { min: 0, max: 1 }; }`. -/
structure SDomain where
  min : ℚ
  max : ℚ
  deriving DecidableEq, Repr

def statDomain (s : Stat) : SDomain :=
  if s = .sd then ⟨0, 1 / 2⟩ else ⟨0, 1⟩

/-- `Engine.computeStat(xs)` / `StatEngine.computeStatistic(values)`:
`NaN` on empty input, else dispatch on the selected statistic. -/
noncomputable def computeStat (st : Stat) (thr : ℚ) (xs : List ℚ) : Option ℝ :=
  if xs = [] then none
  else
    match st with
    | .mean => (meanQ xs).map (fun q => (q : ℝ))
    | .median => (medQ xs).map (fun q => (q : ℝ))
    | .sd => some (robustSD xs)
    | .proportion => some ((propAboveQ thr xs : ℚ) : ℝ)

/-! ## Sampling-distribution bin resolution

Two distinct resolutions exist in the source:
* `StatEngine.addToSamplingDistribution`: denominator `max - min`;
* `Engine.calculateWithGather` and `Engine.handleRepeatTurbo` (and the
  `part_002` engine): denominator `max - min + 1e-9`.
Both clamp the ratio into `[0,1]`, multiply by the bin count, floor, and
clamp the index into `[0, STAT_BINS-1]`. -/

/-- Shared tail of both resolutions: clamp ratio, scale, floor, clamp. -/
noncomputable def binResolveR (r : ℝ) : ℕ :=
  (clampZ ⌊clampR r 0 1 * (STAT_BINS : ℝ)⌋ 0 ((STAT_BINS : ℤ) - 1)).toNat

/-- Computable mirror of `binResolveR` over `ℚ` (same formula). -/
def binResolveQ (r : ℚ) : ℕ :=
  (clampZ ⌊clampQ r 0 1 * (STAT_BINS : ℚ)⌋ 0 ((STAT_BINS : ℤ) - 1)).toNat

/-- `addToSamplingDistribution`'s bin. -/
noncomputable def addBin (v : ℝ) (dom : SDomain) : ℕ :=
  binResolveR ((v - (dom.min : ℝ)) / ((dom.max : ℝ) - (dom.min : ℝ)))

/-- Gather/turbo bin (`(val - min) / (max - min + 1e-9)`). -/
noncomputable def statBin1e9 (v : ℝ) (dom : SDomain) : ℕ :=
  binResolveR ((v - (dom.min : ℝ)) / ((dom.max : ℝ) - (dom.min : ℝ) + 1 / 1000000000))

/-- Computable mirror of `statBin1e9` on rational inputs. -/
def statBin1e9Q (v : ℚ) (dom : SDomain) : ℕ :=
  binResolveQ ((v - dom.min) / (dom.max - dom.min + 1 / 1000000000))

/-- Modelled from the spec: the claimed formula
`clamp(floor((v-min)/(max-min)*B), 0, B-1)`. -/
noncomputable def specBinFormula (v : ℝ) (dom : SDomain) : ℕ :=
  (clampZ ⌊(v - (dom.min : ℝ)) / ((dom.max : ℝ) - (dom.min : ℝ)) * (STAT_BINS : ℝ)⌋
    0 ((STAT_BINS : ℤ) - 1)).toNat

/-- The amended formula for the gather/turbo paths: same shape with the
`1e-9` guard added to the denominator. -/
noncomputable def specBinFormulaEps (v : ℝ) (dom : SDomain) : ℕ :=
  (clampZ ⌊(v - (dom.min : ℝ)) / ((dom.max : ℝ) - (dom.min : ℝ) + 1 / 1000000000) *
    (STAT_BINS : ℝ)⌋ 0 ((STAT_BINS : ℤ) - 1)).toNat

theorem binResolveR_cast (q : ℚ) : binResolveR (q : ℝ) = binResolveQ q := by
  unfold binResolveR binResolveQ clampR clampQ
  have h0 : (0 : ℝ) = ((0 : ℚ) : ℝ) := by norm_num
  have h1 : (1 : ℝ) = ((1 : ℚ) : ℝ) := by norm_num
  have hB : ((STAT_BINS : ℝ)) = (((STAT_BINS : ℚ)) : ℝ) := by push_cast; rfl
  rw [h0, h1, hB, ← Rat.cast_min, ← Rat.cast_max, ← Rat.cast_mul, Rat.floor_cast]

theorem statBin1e9_cast (q : ℚ) (dom : SDomain) :
    statBin1e9 (q : ℝ) dom = statBin1e9Q q dom := by
  unfold statBin1e9 statBin1e9Q
  rw [show ((q : ℝ) - (dom.min : ℝ)) / ((dom.max : ℝ) - (dom.min : ℝ) + 1 / 1000000000) =
      (((q - dom.min) / (dom.max - dom.min + 1 / 1000000000) : ℚ) : ℝ) by push_cast; ring]
  exact binResolveR_cast _

/-- The clamp-before-scale resolution agrees with the claim's direct
clamp-after-floor formula (for the positive bin count `STAT_BINS = 60`). -/
theorem binResolveR_eq_direct (r : ℝ) :
    binResolveR r = (clampZ ⌊r * (STAT_BINS : ℝ)⌋ 0 ((STAT_BINS : ℤ) - 1)).toNat := by
  unfold binResolveR clampR clampZ
  have hBpos : (0 : ℝ) < (STAT_BINS : ℝ) := by norm_num [STAT_BINS]
  rcases lt_or_le r 0 with hneg | hge0
  · have hmin : min (1 : ℝ) r = r := min_eq_right (hneg.le.trans zero_le_one)
    have hmax : max (0 : ℝ) r = 0 := max_eq_left hneg.le
    have hf : ⌊r * (STAT_BINS : ℝ)⌋ < 0 := by
      rw [Int.floor_lt]
      push_cast
      exact mul_neg_of_neg_of_pos hneg hBpos
    rw [hmin, hmax, zero_mul, Int.floor_zero]
    omega
  · rcases le_or_lt r 1 with hle1 | hgt1
    · rw [min_eq_right hle1, max_eq_right hge0]
    · have hmin : min (1 : ℝ) r = 1 := min_eq_left hgt1.le
      have hmax : max (0 : ℝ) (1 : ℝ) = 1 := max_eq_right zero_le_one
      have hf : (STAT_BINS : ℤ) ≤ ⌊r * (STAT_BINS : ℝ)⌋ := by
        rw [Int.le_floor]
        push_cast
        nlinarith
      rw [hmin, hmax, one_mul]
      have h60 : ⌊(STAT_BINS : ℝ)⌋ = (STAT_BINS : ℤ) := by
        norm_num [STAT_BINS]
      rw [h60]
      omega

/-! ## Claim C1: standard deviation on insufficient data -/

/-- Modelled from the spec: the sample variance with denominator `n-1`
(mean subtracted, squares summed). -/
def specSampleVar (xs : List ℚ) : ℚ :=
  (xs.map (fun x => (x - xs.sum / xs.length) ^ 2)).sum / ((xs.length : ℚ) - 1)

/-- C1 counterexample: on the one-element list `[1/2]` the sd statistic
returns `0` — a number, not the explicit undefined result the claim
requires for every list with fewer than 2 elements. -/
theorem computeStat_sd_singleton_zero :
    computeStat .sd (1 / 2) [1 / 2] = some 0 := by
  have hne : ([1 / 2] : List ℚ) ≠ [] := by simp
  have hvar : varianceUnbiasedQ [1 / 2] = none := by
    unfold varianceUnbiasedQ
    rw [if_pos (by simp)]
  unfold computeStat
  rw [if_neg hne]
  unfold robustSD
  rw [hvar]

/-- C1 (amended): the sd statistic is `NaN` only on the empty list; a
one-element list yields `0` (`robustSD` coerces the undefined variance to
`0`); for `n ≥ 2` it is the square root of the sample variance with
denominator `n-1`. -/
theorem computeStat_sd_cases (thr : ℚ) (xs : List ℚ) :
    (xs = [] → computeStat .sd thr xs = none) ∧
    (xs.length = 1 → computeStat .sd thr xs = some 0) ∧
    (2 ≤ xs.length → computeStat .sd thr xs = some (Real.sqrt (specSampleVar xs))) := by
  refine ⟨?_, ?_, ?_⟩
  · intro h
    simp [computeStat, h]
  · intro h
    have hne : xs ≠ [] := by
      intro hnil
      rw [hnil] at h
      simp at h
    have hvar : varianceUnbiasedQ xs = none := by
      unfold varianceUnbiasedQ
      rw [if_pos (by omega)]
    simp [computeStat, hne, robustSD, hvar]
  · intro h
    have hne : xs ≠ [] := by
      intro hnil
      rw [hnil] at h
      simp at h
    have hmean : meanQ xs = some (xs.sum / xs.length) := by
      unfold meanQ
      rw [if_neg hne]
    have hvar : varianceUnbiasedQ xs = some (specSampleVar xs) := by
      unfold varianceUnbiasedQ specSampleVar
      rw [if_neg (by omega), hmean]
    have hnn : 0 ≤ specSampleVar xs := by
      unfold specSampleVar
      apply div_nonneg
      · apply List.sum_nonneg
        intro q hq
        obtain ⟨x, _, rfl⟩ := List.mem_map.mp hq
        positivity
      · have : (2 : ℚ) ≤ (xs.length : ℚ) := by exact_mod_cast h
        linarith
    simp [computeStat, hne, robustSD, hvar, hnn]

/-- Witness for `computeStat_sd_cases` at `xs = [0, 1, 2]`. -/
theorem computeStat_sd_cases_witness :
    2 ≤ ([0, 1, 2] : List ℚ).length ∧
    computeStat .sd (1 / 2) [0, 1, 2] = some (Real.sqrt (specSampleVar [0, 1, 2])) :=
  ⟨by decide, (computeStat_sd_cases (1 / 2) [0, 1, 2]).2.2 (by decide)⟩

/-! ## Claim C4: accumulator bin mapping -/

/-- C4 counterexample: the statistic value `1/60` is reachable (it is the
mean of the sample holding the bin-0 and bin-1 midpoints `1/120` and
`3/120`); the claim's formula resolves it to bin `1`, and
`addToSamplingDistribution` agrees, but the gather/turbo resolution with
its `1e-9`-guarded denominator resolves it to bin `0`. -/
theorem gather_bin_ne_claimed_formula :
    computeStat .mean (1 / 2) [1 / 120, 3 / 120] = some ((1 / 60 : ℚ) : ℝ) ∧
    statBin1e9 ((1 / 60 : ℚ) : ℝ) (statDomain .mean) = 0 ∧
    specBinFormula ((1 / 60 : ℚ) : ℝ) (statDomain .mean) = 1 := by
  have hdom : statDomain .mean = ⟨0, 1⟩ := rfl
  refine ⟨?_, ?_, ?_⟩
  · have hne : ([1 / 120, 3 / 120] : List ℚ) ≠ [] := by simp
    have hmean : meanQ [1 / 120, 3 / 120] = some (1 / 60) := by
      unfold meanQ
      rw [if_neg hne]
      norm_num
    unfold computeStat
    rw [if_neg hne]
    show (meanQ [1 / 120, 3 / 120]).map (fun q => (q : ℝ)) = some ((1 / 60 : ℚ) : ℝ)
    rw [hmean]
    rfl
  · rw [statBin1e9_cast, hdom]
    unfold statBin1e9Q binResolveQ clampQ clampZ
    norm_num [STAT_BINS, min_def, max_def]
  · rw [hdom]
    unfold specBinFormula clampZ
    norm_num [STAT_BINS, min_def, max_def]

/-- C4 (amended): `addToSamplingDistribution` resolves exactly the claimed
formula `clamp(floor((v-min)/(max-min)*B), 0, B-1)` for every real
statistic value and both active domains; the gather and turbo paths
instead resolve `clamp(floor((v-min)/(max-min+1e-9)*B), 0, B-1)`, whose
guarded denominator can land exact bin-boundary values one bin lower. -/
theorem bin_mapping_resolved (st : Stat) (v : ℝ) :
    addBin v (statDomain st) = specBinFormula v (statDomain st) ∧
    statBin1e9 v (statDomain st) = specBinFormulaEps v (statDomain st) := by
  constructor
  · unfold addBin specBinFormula
    exact binResolveR_eq_direct _
  · unfold statBin1e9 specBinFormulaEps
    exact binResolveR_eq_direct _

/-! ## The animation engine (`class Engine`, `part_001`; the `part_002`
`StatEngine` is the same machine with configurable `cols`/`statBins`)

State fields keep the source's names (`end` → `endTime`, `until` →
`untilT`, since those words are reserved here). Geometry fields hold the
values the constructor leaves after `resetGeometry({})` with the default
`plotW = 960` (`BOX = 15`, `gridX0 = 30`); the `BOX_*_Y` stack heights
keep their constructor value 8 (they are only rescaled inside the
renderer's `draw()`, which is outside the model). `performance.now()`
and tick timestamps are explicit parameters. -/

/-- A sample-tray particle (`this.sampleParticles` entries). -/
structure SParticle where
  col : ℕ
  x : ℚ
  y : ℚ
  vy : ℚ
  targetY : ℚ
  deriving DecidableEq, Repr

/-- A sampling-distribution particle (`this.statParticles` entries). -/
structure BParticle where
  x : ℚ
  y : ℚ
  vy : ℚ
  targetY : ℚ
  bin : ℕ
  deriving DecidableEq, Repr

/-- A gather-animation particle (`this.gatherParticles` entries). -/
structure GParticle where
  sx : ℚ
  sy : ℚ
  x : ℚ
  y : ℚ
  deriving DecidableEq, Repr

/-- A population flash (`this.popFlashes` entries). -/
structure Flash where
  col : ℕ
  y : ℚ
  untilT : ℚ
  deriving DecidableEq, Repr

/-- The gather convergence target (`this.gatherTarget`). -/
structure GatherTarget where
  x : ℚ
  y : ℚ
  bin : ℕ
  deriving DecidableEq, Repr

/-- An emission plan (`this.emissionPlan`). -/
structure EmissionPlan where
  start : ℚ
  endTime : ℚ
  total : ℕ
  emitted : ℕ
  cols : List ℕ
  xs : List ℚ
  deriving DecidableEq, Repr

inductive Speed
  | normal
  | fast
  deriving DecidableEq, Repr

structure Engine where
  popCounts : List ℕ
  midCounts : List ℕ
  botCounts : List ℕ
  sampleParticles : List SParticle
  statParticles : List BParticle
  popFlashes : List Flash
  gatherParticles : List GParticle
  gatherTarget : Option GatherTarget
  gathering : Bool
  gatherStart : ℚ
  gatherDur : ℚ
  emissionPlan : Option EmissionPlan
  lastSample : List ℚ
  lastGatheringSample : Option (List ℚ)
  statistic : Stat
  threshold : ℚ
  speed : Speed
  rngT : ℕ
  needsRedraw : Bool
  marginY : ℚ
  H_TOP : ℚ
  H_MID : ℚ
  H_BOT : ℚ
  BOX : ℚ
  BOX_TOP_Y : ℚ
  BOX_MID_Y : ℚ
  BOX_BOT_Y : ℚ
  gridX0 : ℚ
  deriving DecidableEq, Repr

/-- The constructor's initial state (RNG seeded; source seeds 1234). -/
def initEngine (seed : ℕ) : Engine where
  popCounts := List.replicate COLS 0
  midCounts := List.replicate COLS 0
  botCounts := List.replicate STAT_BINS 0
  sampleParticles := []
  statParticles := []
  popFlashes := []
  gatherParticles := []
  gatherTarget := none
  gathering := false
  gatherStart := 0
  gatherDur := 260
  emissionPlan := none
  lastSample := []
  lastGatheringSample := none
  statistic := .mean
  threshold := 1 / 2
  speed := .normal
  rngT := seed
  needsRedraw := true
  marginY := 8
  H_TOP := 300
  H_MID := 240
  H_BOT := 360
  BOX := 15
  BOX_TOP_Y := 8
  BOX_MID_Y := 8
  BOX_BOT_Y := 8
  gridX0 := 30

/-- `colCenter(col) { return this.gridX0 + col * this.BOX + this.BOX / 2; }` -/
def colCenter (e : Engine) (col : ℕ) : ℚ := e.gridX0 + (col : ℚ) * e.BOX + e.BOX / 2

/-- Increment entry `i` of a histogram (`counts[i] = (counts[i]||0) + 1`). -/
def bumpAt (l : List ℕ) (i : ℕ) : List ℕ := l.set i (l.getD i 0 + 1)

/-- `hasSampleInMid()`: some tray column has a positive count. -/
def hasSampleInMid (e : Engine) : Bool := e.midCounts.any (fun c => 0 < c)

/-- `hasActiveAnimations()`. -/
def hasActiveAnimations (e : Engine) : Bool :=
  e.emissionPlan.isSome || !e.sampleParticles.isEmpty || !e.statParticles.isEmpty ||
    e.gathering || !e.popFlashes.isEmpty || !e.gatherParticles.isEmpty

/-- `scheduleEmission(xs, cols, dropMs)` at explicit time `now`. -/
def scheduleEmission (e : Engine) (xs : List ℚ) (cols : List ℕ) (dropMs now : ℚ) : Engine :=
  { e with lastSample := xs,
           emissionPlan := some { start := now, endTime := now + dropMs,
                                  total := cols.length, emitted := 0,
                                  cols := cols, xs := xs } }

/-- `startSample(n, dropMs)`: draw a sample, thread the RNG state, and
schedule the emission. -/
def startSampleE (e : Engine) (n : ℕ) (dropMs now : ℚ) : Engine :=
  let r := sampleNFrom e.popCounts e.rngT n
  scheduleEmission { e with rngT := r.2.2 } r.1 r.2.1 dropMs now

/-- Per-column counts of the in-flight sample particles
(`for (const s of this.sampleParticles) inflight[s.col]++`). -/
def inflightCounts (ps : List SParticle) : List ℕ :=
  ps.foldl (fun acc s => bumpAt acc s.col) (List.replicate COLS 0)

/-- The body of one emission-loop iteration: the new particle (starting at
the top of its population stack, targeting its tray stack level plus
in-flight particles) and its flash. -/
def emitParticle (e : Engine) (cols : List ℕ) (now : ℚ) (emitted : ℕ)
    (inflight : List ℕ) : SParticle × Flash :=
  let col := cols.getD emitted 0
  let topBase := e.marginY + e.H_TOP - 16
  let midBase := e.marginY + e.H_TOP + e.H_MID - 8
  let yStart := if 0 < e.popCounts.getD col 0 then
      topBase - ((e.popCounts.getD col 0 : ℚ) - 1) * e.BOX_TOP_Y - e.BOX_TOP_Y / 2
    else e.BOX_TOP_Y * 2
  let level := (e.midCounts.getD col 0 : ℚ) + (inflight.getD col 0 : ℚ)
  let targetY := midBase - level * e.BOX_MID_Y - e.BOX_MID_Y / 2
  ({ col := col, x := colCenter e col, y := yStart, vy := 0, targetY := targetY },
   { col := col, y := yStart, untilT := now + 160 })

/-- The emission `while` loop: with `k` permits left (`toEmit`), emit the
next particle of the plan while `emitted < total`; returns the new
particles, the new flashes, and the final `emitted`. -/
def emitLoop (e : Engine) (cols : List ℕ) (now : ℚ) :
    ℕ → ℕ → List ℕ → List SParticle × List Flash × ℕ
  | 0, emitted, _ => ([], [], emitted)
  | k + 1, emitted, inflight =>
    if emitted < cols.length then
      let pf := emitParticle e cols now emitted inflight
      let rest := emitLoop e cols now k (emitted + 1) (bumpAt inflight (cols.getD emitted 0))
      (pf.1 :: rest.1, pf.2 :: rest.2.1, rest.2.2)
    else ([], [], emitted)

/-- The emission phase of `tick`: release `floor(f·total) − emitted`
particles (all remaining ones once `f ≥ 1`), then clear the plan when it
is fully emitted. -/
def emissionStep (e : Engine) (now : ℚ) : Engine :=
  match e.emissionPlan with
  | none => e
  | some p =>
    let f := clampQ ((now - p.start) / (p.endTime - p.start)) 0 1
    let te0 : ℤ := (⌊f * (p.total : ℚ)⌋₊ : ℤ) - (p.emitted : ℤ)
    let te : ℤ := if te0 ≤ 0 ∧ 1 ≤ f then (p.total : ℤ) - (p.emitted : ℤ) else te0
    let r := if 0 < te then
        emitLoop e p.cols now te.toNat p.emitted (inflightCounts e.sampleParticles)
      else ([], [], p.emitted)
    { e with sampleParticles := e.sampleParticles ++ r.1,
             popFlashes := e.popFlashes ++ r.2.1,
             emissionPlan := if p.total ≤ r.2.2 then none
               else some { p with emitted := r.2.2 } }

/-- Sample-particle physics: `vy += g·dt; y = min(y + vy·dt, targetY)`;
a particle within `0.1` of its target lands and increments its tray
column, otherwise it survives with the updated position. -/
def settleStep (g dt : ℚ) : List SParticle → List ℕ → List SParticle × List ℕ
  | [], mid => ([], mid)
  | s :: rest, mid =>
    let vy := s.vy + g * dt
    let y := min (s.y + vy * dt) s.targetY
    if y < s.targetY - 1 / 10 then
      let r := settleStep g dt rest mid
      ({ s with vy := vy, y := y } :: r.1, r.2)
    else settleStep g dt rest (bumpAt mid s.col)

def settleSamplesStep (e : Engine) (g dt : ℚ) : Engine :=
  let r := settleStep g dt e.sampleParticles e.midCounts
  { e with sampleParticles := r.1, midCounts := r.2 }

/-- Statistic-particle physics (into the sampling distribution). -/
def settleStatStep (g dt : ℚ) : List BParticle → List ℕ → List BParticle × List ℕ
  | [], bot => ([], bot)
  | q :: rest, bot =>
    let vy := q.vy + g * dt
    let y := min (q.y + vy * dt) q.targetY
    if y < q.targetY - 1 / 10 then
      let r := settleStatStep g dt rest bot
      ({ q with vy := vy, y := y } :: r.1, r.2)
    else settleStatStep g dt rest (bumpAt bot q.bin)

def settleStatsStep (e : Engine) (g dt : ℚ) : Engine :=
  let r := settleStatStep g dt e.statParticles e.botCounts
  { e with statParticles := r.1, botCounts := r.2 }

/-- The gather phase of `tick`: interpolate every gather particle toward
the target; on `t ≥ 1`, spawn exactly one statistic particle falling into
the resolved bin and clear the gather state. -/
def gatherStep (e : Engine) (now : ℚ) : Engine :=
  match e.gatherTarget with
  | none => e
  | some gt =>
    if e.gathering then
      let t := clampQ ((now - e.gatherStart) / e.gatherDur) 0 1
      let gps := e.gatherParticles.map (fun gp =>
        { gp with x := gp.sx + (gt.x - gp.sx) * t, y := gp.sy + (gt.y - gp.sy) * t })
      if 1 ≤ t then
        let botBase := e.marginY + e.H_TOP + e.H_MID + e.H_BOT - 8
        let inflightForBin := (e.statParticles.filter (fun q => q.bin = gt.bin)).length
        let level := (e.botCounts.getD gt.bin 0 : ℚ) + (inflightForBin : ℚ)
        let targetY := botBase - level * e.BOX_BOT_Y - e.BOX_BOT_Y / 2
        let xCenter := e.gridX0 + (gt.bin : ℚ) * e.BOX + e.BOX / 2
        let newP : BParticle := { x := xCenter, y := gt.y, vy := 0,
                                  targetY := targetY, bin := gt.bin }
        { e with statParticles := e.statParticles ++ [newP],
                 gathering := false, gatherTarget := none, gatherParticles := [],
                 lastGatheringSample := none }
      else { e with gatherParticles := gps }
    else e

def flashStep (e : Engine) (now : ℚ) : Engine :=
  { e with popFlashes := e.popFlashes.filter (fun f => now < f.untilT) }

/-- The state-changing body of `tick(dt, now)`: emission, sample physics,
gather, statistic physics, flash expiry — in the source's order, with
`g = fast ? 2400 : 1400`. -/
def tickCore (e : Engine) (dt now : ℚ) : Engine :=
  let g : ℚ := if e.speed = .fast then 2400 else 1400
  flashStep
    (settleStatsStep (gatherStep (settleSamplesStep (emissionStep e now) g dt) now) g dt) now

/-- `tick(dt, now)`: the body above plus the redraw flag (set when there
were active animations before or after the tick). -/
def tickE (e : Engine) (dt now : ℚ) : Engine :=
  let e5 := tickCore e dt now
  if hasActiveAnimations e5 || hasActiveAnimations e then { e5 with needsRedraw := true }
  else e5

/-- `calculateWithGather()` at explicit time `now`. The statistic value is
always defined here (the guard ensures a non-empty gathered sample), so
the `Option.getD 0` fallback on the computed value is unreachable. -/
noncomputable def calcWithGatherE (e : Engine) (now : ℚ) : Engine :=
  if e.lastSample = [] ∧ hasSampleInMid e = false then e
  else
    let gsample := if e.lastSample ≠ [] then e.lastSample
      else (List.range COLS).flatMap (fun c =>
        List.replicate (e.midCounts.getD c 0) (binCenter c))
    let val := computeStat e.statistic e.threshold gsample
    let bin := statBin1e9 (val.getD 0) (statDomain e.statistic)
    let gatherX := e.gridX0 + (bin : ℚ) * e.BOX + e.BOX / 2
    let gatherY := e.marginY + e.H_TOP + e.H_MID / 2
    let midBase := e.marginY + e.H_TOP + e.H_MID - 16
    let gps := (List.range COLS).flatMap (fun c =>
      (List.range (e.midCounts.getD c 0)).map (fun r =>
        ({ sx := colCenter e c, sy := midBase - (r : ℚ) * e.BOX_MID_Y - e.BOX_MID_Y / 2,
           x := colCenter e c,
           y := midBase - (r : ℚ) * e.BOX_MID_Y - e.BOX_MID_Y / 2 } : GParticle)))
    { e with lastGatheringSample := some gsample,
             gatherParticles := gps,
             midCounts := List.replicate COLS 0,
             gatherTarget := some { x := gatherX, y := gatherY, bin := bin },
             gathering := true,
             gatherStart := now,
             lastSample := [] }

/-- `clearTray()`. -/
def clearTrayE (e : Engine) : Engine :=
  { e with midCounts := List.replicate COLS 0, lastSample := [], sampleParticles := [],
           emissionPlan := none, gatherParticles := [], gathering := false,
           needsRedraw := true }

/-- `resetExperiment()`. -/
def resetExperimentE (e : Engine) : Engine :=
  { e with botCounts := List.replicate STAT_BINS 0, statParticles := [],
           needsRedraw := true }

/-- One turbo iteration: draw, compute the statistic, increment the
resolved bin. A `NaN` statistic (empty sample, i.e. `n = 0`) makes the JS
typed-array write a silent no-op, modelled by skipping the increment. -/
noncomputable def turboIter (e : Engine) (n : ℕ) : Engine :=
  let r := sampleNFrom e.popCounts e.rngT n
  match computeStat e.statistic e.threshold r.1 with
  | none => { e with rngT := r.2.2 }
  | some v =>
    { e with rngT := r.2.2,
             botCounts := bumpAt e.botCounts (statBin1e9 v (statDomain e.statistic)) }

noncomputable def turboLoop (n : ℕ) : Engine → ℕ → Engine
  | e, 0 => e
  | e, k + 1 => turboLoop n (turboIter e n) k

/-- `handleRepeatTurbo(n)`: 1000 synchronous draw→statistic→increment
iterations, no particles. -/
noncomputable def handleRepeatTurboE (e : Engine) (n : ℕ) : Engine :=
  { turboLoop n e 1000 with needsRedraw := true }

/-- `drawSampleWithAutoCalculate(n, dropMs)`: when the tray is non-empty,
start the gather now and schedule `startSample` via `setTimeout(…, 100)`
(returned as the scheduled absolute time); otherwise start immediately. -/
noncomputable def drawSampleWithAutoCalculateE (e : Engine) (now : ℚ) (n : ℕ) (dropMs : ℚ) :
    Engine × Option ℚ :=
  if e.lastSample ≠ [] ∨ hasSampleInMid e = true then
    (calcWithGatherE e now, some (now + 100))
  else (startSampleE e n dropMs now, none)

/-! ## Structural lemmas about the tick phases -/

theorem emissionStep_preserves (e : Engine) (now : ℚ) :
    (emissionStep e now).gathering = e.gathering ∧
    (emissionStep e now).gatherTarget = e.gatherTarget ∧
    (emissionStep e now).gatherStart = e.gatherStart ∧
    (emissionStep e now).gatherDur = e.gatherDur ∧
    (emissionStep e now).gatherParticles = e.gatherParticles ∧
    (emissionStep e now).midCounts = e.midCounts ∧
    (emissionStep e now).botCounts = e.botCounts ∧
    (emissionStep e now).statParticles = e.statParticles ∧
    (emissionStep e now).speed = e.speed ∧
    (emissionStep e now).popCounts = e.popCounts := by
  unfold emissionStep
  cases hp : e.emissionPlan <;> simp

theorem settleSamplesStep_preserves (e : Engine) (g dt : ℚ) :
    (settleSamplesStep e g dt).gathering = e.gathering ∧
    (settleSamplesStep e g dt).gatherTarget = e.gatherTarget ∧
    (settleSamplesStep e g dt).gatherStart = e.gatherStart ∧
    (settleSamplesStep e g dt).gatherDur = e.gatherDur ∧
    (settleSamplesStep e g dt).gatherParticles = e.gatherParticles ∧
    (settleSamplesStep e g dt).botCounts = e.botCounts ∧
    (settleSamplesStep e g dt).statParticles = e.statParticles ∧
    (settleSamplesStep e g dt).emissionPlan = e.emissionPlan ∧
    (settleSamplesStep e g dt).speed = e.speed ∧
    (settleSamplesStep e g dt).popCounts = e.popCounts :=
  ⟨rfl, rfl, rfl, rfl, rfl, rfl, rfl, rfl, rfl, rfl⟩

theorem gatherStep_preserves (e : Engine) (now : ℚ) :
    (gatherStep e now).emissionPlan = e.emissionPlan ∧
    (gatherStep e now).sampleParticles = e.sampleParticles ∧
    (gatherStep e now).midCounts = e.midCounts ∧
    (gatherStep e now).botCounts = e.botCounts ∧
    (gatherStep e now).gatherDur = e.gatherDur ∧
    (gatherStep e now).speed = e.speed ∧
    (gatherStep e now).popCounts = e.popCounts := by
  unfold gatherStep
  cases hgt : e.gatherTarget
  · simp
  · dsimp only
    split_ifs <;> simp

theorem settleStatsStep_preserves (e : Engine) (g dt : ℚ) :
    (settleStatsStep e g dt).gathering = e.gathering ∧
    (settleStatsStep e g dt).gatherTarget = e.gatherTarget ∧
    (settleStatsStep e g dt).gatherParticles = e.gatherParticles ∧
    (settleStatsStep e g dt).midCounts = e.midCounts ∧
    (settleStatsStep e g dt).sampleParticles = e.sampleParticles ∧
    (settleStatsStep e g dt).emissionPlan = e.emissionPlan ∧
    (settleStatsStep e g dt).gatherStart = e.gatherStart ∧
    (settleStatsStep e g dt).gatherDur = e.gatherDur ∧
    (settleStatsStep e g dt).speed = e.speed ∧
    (settleStatsStep e g dt).popCounts = e.popCounts :=
  ⟨rfl, rfl, rfl, rfl, rfl, rfl, rfl, rfl, rfl, rfl⟩

theorem flashStep_preserves (e : Engine) (now : ℚ) :
    (flashStep e now).gathering = e.gathering ∧
    (flashStep e now).gatherTarget = e.gatherTarget ∧
    (flashStep e now).gatherParticles = e.gatherParticles ∧
    (flashStep e now).midCounts = e.midCounts ∧
    (flashStep e now).sampleParticles = e.sampleParticles ∧
    (flashStep e now).emissionPlan = e.emissionPlan ∧
    (flashStep e now).botCounts = e.botCounts ∧
    (flashStep e now).statParticles = e.statParticles ∧
    (flashStep e now).gatherStart = e.gatherStart ∧
    (flashStep e now).gatherDur = e.gatherDur :=
  ⟨rfl, rfl, rfl, rfl, rfl, rfl, rfl, rfl, rfl, rfl⟩

theorem clampQ_nonneg (x b : ℚ) : 0 ≤ clampQ x 0 b := le_max_left 0 _

theorem clampQ_le_one (x : ℚ) : clampQ x 0 1 ≤ 1 :=
  max_le (by norm_num) (min_le_left _ _)

theorem emitParticle_col (e : Engine) (cols : List ℕ) (now : ℚ) (em : ℕ)
    (inflight : List ℕ) :
    (emitParticle e cols now em inflight).1.col = cols.getD em 0 := rfl

theorem emitLoop_succ_lt (e : Engine) (cols : List ℕ) (now : ℚ) (k em : ℕ)
    (inflight : List ℕ) (h : em < cols.length) :
    emitLoop e cols now (k + 1) em inflight =
      ((emitParticle e cols now em inflight).1 ::
          (emitLoop e cols now k (em + 1) (bumpAt inflight (cols.getD em 0))).1,
        (emitParticle e cols now em inflight).2 ::
          (emitLoop e cols now k (em + 1) (bumpAt inflight (cols.getD em 0))).2.1,
        (emitLoop e cols now k (em + 1) (bumpAt inflight (cols.getD em 0))).2.2) := by
  simp only [emitLoop]
  rw [if_pos h]

theorem emitLoop_succ_ge (e : Engine) (cols : List ℕ) (now : ℚ) (k em : ℕ)
    (inflight : List ℕ) (h : ¬em < cols.length) :
    emitLoop e cols now (k + 1) em inflight = ([], [], em) := by
  simp only [emitLoop]
  rw [if_neg h]

/-- How the emission loop advances `emitted` and how many particles it
creates, and that every created particle's column comes from the plan. -/
theorem emitLoop_spec (e : Engine) (cols : List ℕ) (now : ℚ)
    (hcols : ∀ c ∈ cols, c < COLS) :
    ∀ (k em : ℕ) (inflight : List ℕ),
      (emitLoop e cols now k em inflight).2.2 = max em (min (em + k) cols.length) ∧
      (emitLoop e cols now k em inflight).1.length + em
        = max em (min (em + k) cols.length) ∧
      (∀ s ∈ (emitLoop e cols now k em inflight).1, s.col < COLS) := by
  intro k
  induction k with
  | zero =>
    intro em inflight
    refine ⟨?_, ?_, ?_⟩
    · show em = max em (min (em + 0) cols.length)
      omega
    · show ([] : List SParticle).length + em = max em (min (em + 0) cols.length)
      rw [List.length_nil]
      omega
    · intro s hs
      exact absurd hs (List.not_mem_nil s)
  | succ k ih =>
    intro em inflight
    by_cases h : em < cols.length
    · rw [emitLoop_succ_lt e cols now k em inflight h]
      obtain ⟨ih1, ih2, ih3⟩ := ih (em + 1) (bumpAt inflight (cols.getD em 0))
      refine ⟨?_, ?_, ?_⟩
      · show (emitLoop e cols now k (em + 1) (bumpAt inflight (cols.getD em 0))).2.2
          = max em (min (em + (k + 1)) cols.length)
        rw [ih1]
        omega
      · show ((emitParticle e cols now em inflight).1 ::
            (emitLoop e cols now k (em + 1) (bumpAt inflight (cols.getD em 0))).1).length + em
          = max em (min (em + (k + 1)) cols.length)
        rw [List.length_cons]
        omega
      · intro s hs
        rcases List.mem_cons.mp hs with hs | hs
        · rw [hs, emitParticle_col]
          have hmem : cols.getD em 0 ∈ cols := by
            rw [List.getD_eq_getElem?_getD, List.getElem?_eq_getElem h]
            exact List.getElem_mem _
          exact hcols _ hmem
        · exact ih3 s hs
    · rw [emitLoop_succ_ge e cols now k em inflight h]
      refine ⟨?_, ?_, ?_⟩
      · show em = max em (min (em + (k + 1)) cols.length)
        omega
      · show ([] : List SParticle).length + em = max em (min (em + (k + 1)) cols.length)
        rw [List.length_nil]
        omega
      · intro s hs
        exact absurd hs (List.not_mem_nil s)

/-- The emission phase keeps an unfinished plan: while the elapsed
fraction is below 1 a plan that has not yet emitted everything stays
present (its `emitted` only reaches `floor(f·total) < total`). -/
theorem emissionStep_keeps_plan (e : Engine) (now : ℚ) (p : EmissionPlan)
    (hp : e.emissionPlan = some p) (hlen : p.cols.length = p.total)
    (hem : p.emitted = 0) (hpos : 0 < p.total)
    (hcols : ∀ c ∈ p.cols, c < COLS)
    (hf : clampQ ((now - p.start) / (p.endTime - p.start)) 0 1 < 1) :
    (emissionStep e now).emissionPlan ≠ none := by
  unfold emissionStep
  rw [hp]
  dsimp only
  have hf0 : 0 ≤ clampQ ((now - p.start) / (p.endTime - p.start)) 0 1 := clampQ_nonneg _ _
  have hflo : ⌊clampQ ((now - p.start) / (p.endTime - p.start)) 0 1 * (p.total : ℚ)⌋₊
      < p.total := by
    have hTpos : (0 : ℚ) < (p.total : ℚ) := by exact_mod_cast hpos
    have : clampQ ((now - p.start) / (p.endTime - p.start)) 0 1 * (p.total : ℚ)
        < (p.total : ℚ) := by
      calc clampQ ((now - p.start) / (p.endTime - p.start)) 0 1 * (p.total : ℚ)
          < 1 * (p.total : ℚ) := mul_lt_mul_of_pos_right hf hTpos
        _ = (p.total : ℚ) := one_mul _
    exact (Nat.floor_lt (by positivity)).mpr this
  rw [if_neg (show ¬((⌊clampQ ((now - p.start) / (p.endTime - p.start)) 0 1 *
      (p.total : ℚ)⌋₊ : ℤ) - (p.emitted : ℤ) ≤ 0 ∧
      1 ≤ clampQ ((now - p.start) / (p.endTime - p.start)) 0 1) from
    fun hc => absurd hc.2 (not_le.mpr hf))]
  by_cases hpos' : (0 : ℤ) < (⌊clampQ ((now - p.start) / (p.endTime - p.start)) 0 1 *
      (p.total : ℚ)⌋₊ : ℤ) - (p.emitted : ℤ)
  · rw [if_pos hpos']
    obtain ⟨h1, -, -⟩ := emitLoop_spec e p.cols now hcols
      ((⌊clampQ ((now - p.start) / (p.endTime - p.start)) 0 1 *
        (p.total : ℚ)⌋₊ : ℤ) - (p.emitted : ℤ)).toNat p.emitted
      (inflightCounts e.sampleParticles)
    rw [h1]
    rw [if_neg (show ¬p.total ≤ max p.emitted (min (p.emitted +
        ((⌊clampQ ((now - p.start) / (p.endTime - p.start)) 0 1 *
          (p.total : ℚ)⌋₊ : ℤ) - (p.emitted : ℤ)).toNat) p.cols.length) from by
      rw [hlen]
      omega)]
    simp
  · rw [if_neg hpos']
    dsimp only
    rw [if_neg (show ¬p.total ≤ p.emitted from by omega)]
    simp

theorem tickE_eq_core (e : Engine) (dt now : ℚ) :
    (tickE e dt now).gathering = (tickCore e dt now).gathering ∧
    (tickE e dt now).gatherTarget = (tickCore e dt now).gatherTarget ∧
    (tickE e dt now).gatherParticles = (tickCore e dt now).gatherParticles ∧
    (tickE e dt now).midCounts = (tickCore e dt now).midCounts ∧
    (tickE e dt now).sampleParticles = (tickCore e dt now).sampleParticles ∧
    (tickE e dt now).emissionPlan = (tickCore e dt now).emissionPlan ∧
    (tickE e dt now).botCounts = (tickCore e dt now).botCounts ∧
    (tickE e dt now).statParticles = (tickCore e dt now).statParticles ∧
    (tickE e dt now).gatherStart = (tickCore e dt now).gatherStart ∧
    (tickE e dt now).gatherDur = (tickCore e dt now).gatherDur ∧
    (tickE e dt now).speed = (tickCore e dt now).speed ∧
    (tickE e dt now).popCounts = (tickCore e dt now).popCounts := by
  unfold tickE
  dsimp only
  split_ifs <;> simp

/-- Behaviour of `calculateWithGather` whenever its guard passes (an
uncommitted sample or a non-empty tray): the tray histogram is zeroed
immediately — at gather start — the gather becomes active with the call's
timestamp, and everything the gather does not own is untouched. -/
theorem calcWithGather_busy (e : Engine) (now : ℚ)
    (h : ¬(e.lastSample = [] ∧ hasSampleInMid e = false)) :
    (calcWithGatherE e now).gathering = true ∧
    (calcWithGatherE e now).midCounts = List.replicate COLS 0 ∧
    (calcWithGatherE e now).gatherStart = now ∧
    (calcWithGatherE e now).gatherDur = e.gatherDur ∧
    (∃ gt, (calcWithGatherE e now).gatherTarget = some gt) ∧
    (calcWithGatherE e now).lastSample = [] ∧
    (calcWithGatherE e now).emissionPlan = e.emissionPlan ∧
    (calcWithGatherE e now).sampleParticles = e.sampleParticles ∧
    (calcWithGatherE e now).statParticles = e.statParticles ∧
    (calcWithGatherE e now).botCounts = e.botCounts ∧
    (calcWithGatherE e now).popCounts = e.popCounts ∧
    (calcWithGatherE e now).speed = e.speed ∧
    (calcWithGatherE e now).rngT = e.rngT ∧
    (calcWithGatherE e now).statistic = e.statistic ∧
    (calcWithGatherE e now).threshold = e.threshold := by
  unfold calcWithGatherE
  rw [if_neg h]
  exact ⟨rfl, rfl, rfl, rfl, ⟨_, rfl⟩, rfl, rfl, rfl, rfl, rfl, rfl, rfl, rfl, rfl, rfl⟩

/-- Behaviour of the gather phase while the interpolation has not yet
reached 1: gathering stays active and no statistic particle is spawned. -/
theorem gatherStep_in_progress (e : Engine) (now : ℚ) (gt : GatherTarget)
    (hg : e.gathering = true) (hgt : e.gatherTarget = some gt)
    (hlt : clampQ ((now - e.gatherStart) / e.gatherDur) 0 1 < 1) :
    (gatherStep e now).gathering = true ∧
    (gatherStep e now).gatherTarget = some gt ∧
    (gatherStep e now).statParticles = e.statParticles ∧
    (gatherStep e now).midCounts = e.midCounts ∧
    (gatherStep e now).gatherStart = e.gatherStart ∧
    (gatherStep e now).gatherDur = e.gatherDur := by
  unfold gatherStep
  rw [hgt]
  dsimp only
  rw [if_pos hg, if_neg (by exact not_le.mpr hlt)]
  exact ⟨hg, rfl, rfl, rfl, rfl, rfl⟩

/-- Behaviour of the gather phase at completion (`t ≥ 1`): exactly one new
statistic particle is appended (falling toward the resolved bin), and the
gather state is cleared. -/
theorem gatherStep_completes (e : Engine) (now : ℚ) (gt : GatherTarget)
    (hg : e.gathering = true) (hgt : e.gatherTarget = some gt)
    (hge : 1 ≤ clampQ ((now - e.gatherStart) / e.gatherDur) 0 1) :
    (gatherStep e now).statParticles.length = e.statParticles.length + 1 ∧
    (∃ p, (gatherStep e now).statParticles = e.statParticles ++ [p] ∧ p.bin = gt.bin) ∧
    (gatherStep e now).gathering = false ∧
    (gatherStep e now).gatherTarget = none ∧
    (gatherStep e now).gatherParticles = [] ∧
    (gatherStep e now).midCounts = e.midCounts := by
  unfold gatherStep
  rw [hgt]
  dsimp only
  rw [if_pos hg, if_pos hge]
  refine ⟨by simp, ⟨_, rfl, rfl⟩, rfl, rfl, rfl, rfl⟩

theorem startSampleE_preserves (e : Engine) (n : ℕ) (d now : ℚ) :
    (startSampleE e n d now).gathering = e.gathering ∧
    (startSampleE e n d now).gatherTarget = e.gatherTarget ∧
    (startSampleE e n d now).gatherStart = e.gatherStart ∧
    (startSampleE e n d now).gatherDur = e.gatherDur ∧
    (startSampleE e n d now).gatherParticles = e.gatherParticles ∧
    (startSampleE e n d now).midCounts = e.midCounts ∧
    (startSampleE e n d now).sampleParticles = e.sampleParticles ∧
    (startSampleE e n d now).statParticles = e.statParticles ∧
    (startSampleE e n d now).botCounts = e.botCounts ∧
    (startSampleE e n d now).speed = e.speed ∧
    (startSampleE e n d now).popCounts = e.popCounts :=
  ⟨rfl, rfl, rfl, rfl, rfl, rfl, rfl, rfl, rfl, rfl, rfl⟩

/-- The plan `startSample` schedules: starts now, ends at `now + dropMs`,
`n` elements none of which are emitted yet, with in-range columns. -/
theorem startSampleE_plan (e : Engine) (n : ℕ) (d now : ℚ) :
    ∃ p : EmissionPlan, (startSampleE e n d now).emissionPlan = some p ∧
      p.start = now ∧ p.endTime = now + d ∧ p.total = n ∧ p.emitted = 0 ∧
      p.cols.length = p.total ∧ (∀ c ∈ p.cols, c < COLS) := by
  refine ⟨_, rfl, rfl, rfl, (sampleNFrom_shape e.popCounts n e.rngT).2.1, rfl, rfl, ?_⟩
  intro c hc
  exact drawSample_cols_lt e.popCounts e.rngT n c hc

theorem clampQ_lt_one_of (x : ℚ) (h0 : 0 ≤ x) (h1 : x < 1) : clampQ x 0 1 < 1 := by
  unfold clampQ
  rw [min_eq_right h1.le, max_eq_right h0]
  exact h1

/-- Core of the auto-gather-overlap analysis: if a redraw is requested at
`t0` while the tray is non-empty, the gather starts at `t0` and the new
emission plan is created at `t0 + 100` (the `setTimeout` delay); at the
`t0 + 150` tick the gather (260 ms long) is still running while the plan
(longer than 50 ms and not yet fully emitted) is still present. -/
theorem overlap_core (e : Engine) (t0 : ℚ) (n : ℕ) (d dt : ℚ)
    (hbusy : e.lastSample ≠ [] ∨ hasSampleInMid e = true)
    (hdur : e.gatherDur = 260) (hn : 0 < n) (hd : 50 < d) :
    (drawSampleWithAutoCalculateE e t0 n d).2 = some (t0 + 100) ∧
    (tickE (startSampleE (drawSampleWithAutoCalculateE e t0 n d).1 n d (t0 + 100))
        dt (t0 + 150)).gathering = true ∧
    (tickE (startSampleE (drawSampleWithAutoCalculateE e t0 n d).1 n d (t0 + 100))
        dt (t0 + 150)).emissionPlan ≠ none := by
  have hbusy' : ¬(e.lastSample = [] ∧ hasSampleInMid e = false) := by
    rcases hbusy with h | h
    · exact fun hc => h hc.1
    · intro hc
      rw [h] at hc
      exact absurd hc.2 (by simp)
  have hfst : (drawSampleWithAutoCalculateE e t0 n d).1 = calcWithGatherE e t0 := by
    unfold drawSampleWithAutoCalculateE
    rw [if_pos hbusy]
  have hsnd : (drawSampleWithAutoCalculateE e t0 n d).2 = some (t0 + 100) := by
    unfold drawSampleWithAutoCalculateE
    rw [if_pos hbusy]
  obtain ⟨hg1, hmidc1, hstart1, hdur1, ⟨gt, hgt1⟩, hlast1, hplan1, hsp1, hstp1, hbot1,
    hpop1, hspd1, hrng1, hstat1, hthr1⟩ := calcWithGather_busy e t0 hbusy'
  rw [hfst]
  set E1 := calcWithGatherE e t0 with hE1def
  set E2 := startSampleE E1 n d (t0 + 100) with hE2def
  obtain ⟨pg, pgt, pgs, pgd, pgp, pmid, psp, pstp, pbot, pspd, ppop⟩ :=
    startSampleE_preserves E1 n d (t0 + 100)
  obtain ⟨p, hp, hps, hpe, hpt, hpem, hplen, hpcols⟩ := startSampleE_plan E1 n d (t0 + 100)
  have hd0 : (0 : ℚ) < d := lt_trans (by norm_num) hd
  have hAplan : (emissionStep E2 (t0 + 150)).emissionPlan ≠ none := by
    refine emissionStep_keeps_plan E2 (t0 + 150) p hp hplen hpem ?_ hpcols ?_
    · rw [hpt]
      exact hn
    · rw [hps, hpe]
      rw [show t0 + 150 - (t0 + 100) = (50 : ℚ) by ring,
        show t0 + 100 + d - (t0 + 100) = d by ring]
      exact clampQ_lt_one_of _ (by positivity) ((div_lt_one hd0).mpr hd)
  have hBfacts : (settleSamplesStep (emissionStep E2 (t0 + 150))
      (if E2.speed = Speed.fast then 2400 else 1400) dt).gathering = true ∧
      (settleSamplesStep (emissionStep E2 (t0 + 150))
        (if E2.speed = Speed.fast then 2400 else 1400) dt).gatherTarget = some gt ∧
      (settleSamplesStep (emissionStep E2 (t0 + 150))
        (if E2.speed = Speed.fast then 2400 else 1400) dt).gatherStart = t0 ∧
      (settleSamplesStep (emissionStep E2 (t0 + 150))
        (if E2.speed = Speed.fast then 2400 else 1400) dt).gatherDur = 260 := by
    refine ⟨?_, ?_, ?_, ?_⟩
    · rw [(settleSamplesStep_preserves _ _ _).1, (emissionStep_preserves _ _).1, pg, hg1]
    · rw [(settleSamplesStep_preserves _ _ _).2.1, (emissionStep_preserves _ _).2.1,
        pgt, hgt1]
    · rw [(settleSamplesStep_preserves _ _ _).2.2.1, (emissionStep_preserves _ _).2.2.1,
        pgs, hstart1]
    · rw [(settleSamplesStep_preserves _ _ _).2.2.2.1, (emissionStep_preserves _ _).2.2.2.1,
        pgd, hdur1, hdur]
  have hlt : clampQ ((t0 + 150 - (settleSamplesStep (emissionStep E2 (t0 + 150))
      (if E2.speed = Speed.fast then 2400 else 1400) dt).gatherStart) /
      (settleSamplesStep (emissionStep E2 (t0 + 150))
        (if E2.speed = Speed.fast then 2400 else 1400) dt).gatherDur) 0 1 < 1 := by
    rw [hBfacts.2.2.1, hBfacts.2.2.2]
    rw [show t0 + 150 - t0 = (150 : ℚ) by ring]
    exact clampQ_lt_one_of _ (by norm_num) (by norm_num)
  refine ⟨hsnd, ?_, ?_⟩
  · rw [(tickE_eq_core E2 dt (t0 + 150)).1]
    unfold tickCore
    dsimp only
    show (gatherStep (settleSamplesStep (emissionStep E2 (t0 + 150))
        (if E2.speed = Speed.fast then 2400 else 1400) dt) (t0 + 150)).gathering = true
    exact (gatherStep_in_progress _ _ gt hBfacts.1 hBfacts.2.1 hlt).1
  · rw [(tickE_eq_core E2 dt (t0 + 150)).2.2.2.2.2.1]
    unfold tickCore
    dsimp only
    show (gatherStep (settleSamplesStep (emissionStep E2 (t0 + 150))
        (if E2.speed = Speed.fast then 2400 else 1400) dt) (t0 + 150)).emissionPlan ≠ none
    rw [(gatherStep_preserves _ _).1, (settleSamplesStep_preserves _ _ _).2.2.2.2.2.2.2.1]
    exact hAplan

/-! ## Conservation machinery (claim C7) -/

theorem bumpAt_length (l : List ℕ) (i : ℕ) : (bumpAt l i).length = l.length :=
  List.length_set l i _

theorem bumpAt_sum (l : List ℕ) (i : ℕ) (h : i < l.length) :
    (bumpAt l i).sum = l.sum + 1 := by
  induction l generalizing i with
  | nil => simp at h
  | cons x xs ih =>
    cases i with
    | zero =>
      show ((x :: xs).set 0 ((x :: xs).getD 0 0 + 1)).sum = (x :: xs).sum + 1
      simp [List.getD_cons_zero]
      omega
    | succ j =>
      have hj : j < xs.length := by simpa using h
      show ((x :: xs).set (j + 1) ((x :: xs).getD (j + 1) 0 + 1)).sum = (x :: xs).sum + 1
      rw [List.set_cons_succ, List.getD_cons_succ, List.sum_cons, List.sum_cons]
      have := ih j hj
      unfold bumpAt at this
      omega

theorem settleStep_cons_fly (g dt : ℚ) (s : SParticle) (rest : List SParticle)
    (mid : List ℕ) (h : min (s.y + (s.vy + g * dt) * dt) s.targetY < s.targetY - 1 / 10) :
    settleStep g dt (s :: rest) mid =
      ({ s with vy := s.vy + g * dt, y := min (s.y + (s.vy + g * dt) * dt) s.targetY } ::
          (settleStep g dt rest mid).1,
        (settleStep g dt rest mid).2) := by
  simp only [settleStep]
  rw [if_pos h]

theorem settleStep_cons_land (g dt : ℚ) (s : SParticle) (rest : List SParticle)
    (mid : List ℕ) (h : ¬min (s.y + (s.vy + g * dt) * dt) s.targetY < s.targetY - 1 / 10) :
    settleStep g dt (s :: rest) mid = settleStep g dt rest (bumpAt mid s.col) := by
  simp only [settleStep]
  rw [if_neg h]

/-- Sample-particle physics conserves counts: every processed particle
either survives or adds exactly one to its tray column, so
`sum(tray) + |survivors|` equals `sum(tray before) + |particles before|`. -/
theorem settleStep_spec (g dt : ℚ) :
    ∀ (ps : List SParticle) (mid : List ℕ), (∀ s ∈ ps, s.col < mid.length) →
      (settleStep g dt ps mid).2.sum + (settleStep g dt ps mid).1.length
          = mid.sum + ps.length ∧
      (settleStep g dt ps mid).2.length = mid.length ∧
      (∀ s ∈ (settleStep g dt ps mid).1, s.col < mid.length) := by
  intro ps
  induction ps with
  | nil =>
    intro mid h
    refine ⟨by simp [settleStep], rfl, ?_⟩
    intro s hs
    exact absurd hs (List.not_mem_nil s)
  | cons s rest ih =>
    intro mid h
    have hs : s.col < mid.length := h s (List.mem_cons_self s rest)
    have hr : ∀ x ∈ rest, x.col < mid.length := fun x hx => h x (List.mem_cons_of_mem s hx)
    by_cases hc : min (s.y + (s.vy + g * dt) * dt) s.targetY < s.targetY - 1 / 10
    · rw [settleStep_cons_fly g dt s rest mid hc]
      obtain ⟨ih1, ih2, ih3⟩ := ih mid hr
      refine ⟨?_, ih2, ?_⟩
      · dsimp only
        simp only [List.length_cons]
        omega
      · intro x hx
        rcases List.mem_cons.mp hx with hx | hx
        · rw [hx]
          exact hs
        · exact ih3 x hx
    · rw [settleStep_cons_land g dt s rest mid hc]
      have hr' : ∀ x ∈ rest, x.col < (bumpAt mid s.col).length := by
        rw [bumpAt_length]
        exact hr
      obtain ⟨ih1, ih2, ih3⟩ := ih (bumpAt mid s.col) hr'
      rw [bumpAt_length] at ih2
      rw [bumpAt_sum mid s.col hs] at ih1
      refine ⟨?_, ih2, ?_⟩
      · rw [List.length_cons]
        omega
      · intro x hx
        have := ih3 x hx
        rwa [bumpAt_length] at this

/-- `total − emitted` of the current plan (0 when there is none). -/
def planRemaining (e : Engine) : ℕ :=
  match e.emissionPlan with
  | none => 0
  | some p => p.total - p.emitted

/-- Well-formedness of the current plan. -/
def planOk (e : Engine) : Prop :=
  match e.emissionPlan with
  | none => True
  | some p => p.cols.length = p.total ∧ p.emitted ≤ p.total ∧ ∀ c ∈ p.cols, c < COLS

/-- The conservation invariant for a draw of `n`: landed counts plus
in-flight particles plus unreleased plan entries always total `n`. -/
def ConservesInv (n : ℕ) (e : Engine) : Prop :=
  e.midCounts.sum + e.sampleParticles.length + planRemaining e = n ∧
  e.midCounts.length = COLS ∧
  (∀ s ∈ e.sampleParticles, s.col < COLS) ∧
  planOk e ∧
  e.gatherTarget = none

theorem emissionStep_inv (e : Engine) (now : ℚ) (n : ℕ) (hinv : ConservesInv n e) :
    ConservesInv n (emissionStep e now) := by
  obtain ⟨hsum, hlen, hcols, hplan, hgt⟩ := hinv
  cases hp : e.emissionPlan with
  | none =>
    have he : emissionStep e now = e := by
      unfold emissionStep
      rw [hp]
    rw [he]
    exact ⟨hsum, hlen, hcols, hplan, hgt⟩
  | some p =>
    have hplan' : p.cols.length = p.total ∧ p.emitted ≤ p.total ∧ ∀ c ∈ p.cols, c < COLS := by
      unfold planOk at hplan
      rw [hp] at hplan
      exact hplan
    obtain ⟨hpl, hpe, hpc⟩ := hplan'
    have hrem : planRemaining e = p.total - p.emitted := by
      unfold planRemaining
      rw [hp]
    unfold emissionStep
    rw [hp]
    dsimp only
    set te : ℤ := if (⌊clampQ ((now - p.start) / (p.endTime - p.start)) 0 1 *
        (p.total : ℚ)⌋₊ : ℤ) - (p.emitted : ℤ) ≤ 0 ∧
        1 ≤ clampQ ((now - p.start) / (p.endTime - p.start)) 0 1 then
        (p.total : ℤ) - (p.emitted : ℤ)
      else (⌊clampQ ((now - p.start) / (p.endTime - p.start)) 0 1 *
        (p.total : ℚ)⌋₊ : ℤ) - (p.emitted : ℤ) with hte
    have hr : ∀ r : List SParticle × List Flash × ℕ,
        r = (if 0 < te then
          emitLoop e p.cols now te.toNat p.emitted (inflightCounts e.sampleParticles)
        else ([], [], p.emitted)) →
        r.2.2 = max p.emitted (min (p.emitted + (if 0 < te then te.toNat else 0))
          p.cols.length) ∧
        r.1.length + p.emitted = max p.emitted (min (p.emitted +
          (if 0 < te then te.toNat else 0)) p.cols.length) ∧
        (∀ s ∈ r.1, s.col < COLS) := by
      intro r hrdef
      by_cases h0 : 0 < te
      · rw [hrdef, if_pos h0, if_pos h0]
        exact emitLoop_spec e p.cols now hpc te.toNat p.emitted _
      · rw [hrdef, if_neg h0, if_neg h0]
        refine ⟨?_, ?_, ?_⟩
        · show p.emitted = max p.emitted (min (p.emitted + 0) p.cols.length)
          omega
        · show ([] : List SParticle).length + p.emitted
            = max p.emitted (min (p.emitted + 0) p.cols.length)
          rw [List.length_nil]
          omega
        · intro s hs
          exact absurd hs (List.not_mem_nil s)
    obtain ⟨hr1, hr2, hr3⟩ := hr _ rfl
    set r := (if 0 < te then
        emitLoop e p.cols now te.toNat p.emitted (inflightCounts e.sampleParticles)
      else ([], [], p.emitted)) with hrd
    have hle : r.2.2 ≤ p.total := by
      rw [hr1]
      omega
    have hge : p.emitted ≤ r.2.2 := by
      rw [hr1]
      omega
    refine ⟨?_, hlen, ?_, ?_, hgt⟩
    · show e.midCounts.sum + (e.sampleParticles ++ r.1).length + planRemaining _ = n
      have hrem' : planRemaining { e with
          sampleParticles := e.sampleParticles ++ r.1,
          popFlashes := e.popFlashes ++ r.2.1,
          emissionPlan := if p.total ≤ r.2.2 then none
            else some { p with emitted := r.2.2 } } = p.total - r.2.2 := by
        unfold planRemaining
        dsimp only
        by_cases hcl : p.total ≤ r.2.2
        · rw [if_pos hcl]
          show 0 = p.total - r.2.2
          omega
        · rw [if_neg hcl]
      rw [hrem', List.length_append]
      rw [hrem] at hsum
      omega
    · intro s hs
      rcases List.mem_append.mp hs with hs | hs
      · exact hcols s hs
      · exact hr3 s hs
    · show planOk _
      unfold planOk
      dsimp only
      by_cases hcl : p.total ≤ r.2.2
      · rw [if_pos hcl]
        trivial
      · rw [if_neg hcl]
        exact ⟨hpl, hle, hpc⟩

theorem settleSamplesStep_inv (e : Engine) (g dt : ℚ) (n : ℕ) (hinv : ConservesInv n e) :
    ConservesInv n (settleSamplesStep e g dt) := by
  obtain ⟨hsum, hlen, hcols, hplan, hgt⟩ := hinv
  have hcols' : ∀ s ∈ e.sampleParticles, s.col < e.midCounts.length := by
    rw [hlen]
    exact hcols
  obtain ⟨h1, h2, h3⟩ := settleStep_spec g dt e.sampleParticles e.midCounts hcols'
  refine ⟨?_, ?_, ?_, hplan, hgt⟩
  · have hm : (settleSamplesStep e g dt).midCounts
        = (settleStep g dt e.sampleParticles e.midCounts).2 := rfl
    have hsp2 : (settleSamplesStep e g dt).sampleParticles
        = (settleStep g dt e.sampleParticles e.midCounts).1 := rfl
    have hrem : planRemaining (settleSamplesStep e g dt) = planRemaining e := rfl
    rw [hm, hsp2, hrem]
    omega
  · show (settleStep g dt e.sampleParticles e.midCounts).2.length = COLS
    rw [h2, hlen]
  · intro s hs
    have := h3 s hs
    rw [hlen] at this
    exact this

theorem gatherStep_inv_of_no_target (e : Engine) (now : ℚ) (hgt : e.gatherTarget = none) :
    gatherStep e now = e := by
  unfold gatherStep
  rw [hgt]

theorem tickE_inv (e : Engine) (dt now : ℚ) (n : ℕ) (hinv : ConservesInv n e) :
    ConservesInv n (tickE e dt now) := by
  have hcore : ConservesInv n (tickCore e dt now) := by
    unfold tickCore
    dsimp only
    have h1 := emissionStep_inv e now n hinv
    have h2 := settleSamplesStep_inv (emissionStep e now)
      (if e.speed = Speed.fast then 2400 else 1400) dt n h1
    have hgt2 : (settleSamplesStep (emissionStep e now)
        (if e.speed = Speed.fast then 2400 else 1400) dt).gatherTarget = none := h2.2.2.2.2
    rw [gatherStep_inv_of_no_target _ now hgt2]
    exact h2
  unfold tickE
  dsimp only
  split_ifs
  · exact hcore
  · exact hcore

theorem startSampleE_inv (e : Engine) (n : ℕ) (d t0 : ℚ)
    (hmid : e.midCounts = List.replicate COLS 0)
    (hsp : e.sampleParticles = [])
    (hgt : e.gatherTarget = none) :
    ConservesInv n (startSampleE e n d t0) := by
  obtain ⟨p, hp, -, -, hpt, hpem, hplen, hpcols⟩ := startSampleE_plan e n d t0
  obtain ⟨-, -, -, -, -, pmid, psp, -, -, -, -⟩ := startSampleE_preserves e n d t0
  have hgt' := (startSampleE_preserves e n d t0).2.1
  refine ⟨?_, ?_, ?_, ?_, ?_⟩
  · rw [pmid, hmid, psp, hsp]
    have hrem : planRemaining (startSampleE e n d t0) = p.total - p.emitted := by
      unfold planRemaining
      rw [hp]
    rw [hrem, hpt, hpem]
    simp
  · rw [pmid, hmid, List.length_replicate]
  · intro s hs
    rw [psp, hsp] at hs
    exact absurd hs (List.not_mem_nil s)
  · unfold planOk
    rw [hp]
    exact ⟨hplen, hpem.symm ▸ Nat.zero_le _, hpcols⟩
  · rw [hgt', hgt]

theorem foldl_tick_inv (n : ℕ) :
    ∀ (ticks : List (ℚ × ℚ)) (e : Engine), ConservesInv n e →
      ConservesInv n (ticks.foldl (fun e pr => tickE e pr.1 pr.2) e) := by
  intro ticks
  induction ticks with
  | nil => intro e h; exact h
  | cons t rest ih =>
    intro e h
    exact ih (tickE e t.1 t.2) (tickE_inv e t.1 t.2 n h)

/-- The emission phase completes a fresh plan once the elapsed fraction
clamps to 1: the plan is cleared and exactly the loop's particles are
appended. -/
theorem emissionStep_finishes (e : Engine) (now : ℚ) (p : EmissionPlan)
    (hp : e.emissionPlan = some p) (hlen : p.cols.length = p.total) (hem : p.emitted = 0)
    (hcols : ∀ c ∈ p.cols, c < COLS)
    (hf : 1 ≤ clampQ ((now - p.start) / (p.endTime - p.start)) 0 1) :
    (emissionStep e now).emissionPlan = none ∧
    (emissionStep e now).sampleParticles = e.sampleParticles ++
      (emitLoop e p.cols now p.total p.emitted (inflightCounts e.sampleParticles)).1 := by
  have hf1 : clampQ ((now - p.start) / (p.endTime - p.start)) 0 1 = 1 :=
    le_antisymm (clampQ_le_one _) hf
  unfold emissionStep
  rw [hp]
  dsimp only
  rw [hf1]
  have hfloor : ⌊(1 : ℚ) * (p.total : ℚ)⌋₊ = p.total := by
    rw [one_mul]
    exact Nat.floor_natCast _
  rw [hfloor, ite_self]
  rcases Nat.eq_zero_or_pos p.total with h0 | hpos
  · rw [if_neg (show ¬(0 : ℤ) < (p.total : ℤ) - (p.emitted : ℤ) from by
      rw [h0, hem]
      norm_num)]
    constructor
    · dsimp only
      rw [if_pos (show p.total ≤ p.emitted from by omega)]
    · dsimp only
      rw [h0]
      rfl
  · rw [if_pos (show (0 : ℤ) < (p.total : ℤ) - (p.emitted : ℤ) from by omega)]
    have htoNat : ((p.total : ℤ) - (p.emitted : ℤ)).toNat = p.total := by
      rw [hem]
      omega
    rw [htoNat]
    obtain ⟨h1, -, -⟩ := emitLoop_spec e p.cols now hcols p.total p.emitted
      (inflightCounts e.sampleParticles)
    constructor
    · dsimp only
      rw [if_pos (show p.total ≤ (emitLoop e p.cols now p.total p.emitted
          (inflightCounts e.sampleParticles)).2.2 from by
        rw [h1, hlen, hem]
        omega)]
    · rfl

/-! ## Claim C7: conservation of a draw -/

/-- C7 (confirmed): for a draw of `n` started on an engine with an empty
tray, no in-flight particles and no gather, after any sequence of ticks
that ends with the emission plan fully released and all sample particles
settled, the sample-tray histogram sums to exactly `n` — each particle
lands exactly once and converts into exactly one increment, with no double
counting and no loss. -/
theorem draw_conservation (e0 : Engine) (n : ℕ) (d t0 : ℚ) (ticks : List (ℚ × ℚ))
    (hmid : e0.midCounts = List.replicate COLS 0)
    (hsp : e0.sampleParticles = [])
    (hgt : e0.gatherTarget = none)
    (hplanF : (ticks.foldl (fun e pr => tickE e pr.1 pr.2)
        (startSampleE e0 n d t0)).emissionPlan = none)
    (hpartF : (ticks.foldl (fun e pr => tickE e pr.1 pr.2)
        (startSampleE e0 n d t0)).sampleParticles = []) :
    (ticks.foldl (fun e pr => tickE e pr.1 pr.2)
        (startSampleE e0 n d t0)).midCounts.sum = n := by
  have hinv := foldl_tick_inv n ticks _ (startSampleE_inv e0 n d t0 hmid hsp hgt)
  obtain ⟨hsum, -, -, -, -⟩ := hinv
  rw [hpartF] at hsum
  have hrem : planRemaining (ticks.foldl (fun e pr => tickE e pr.1 pr.2)
      (startSampleE e0 n d t0)) = 0 := by
    unfold planRemaining
    rw [hplanF]
  rw [hrem] at hsum
  simpa using hsum

/-- A population putting all its weight (5) on column 0; every draw from
it selects column 0 whatever the RNG value is. -/
def wpop : List ℕ := 5 :: List.replicate 59 0

def wpopEngine : Engine := { initEngine 0 with popCounts := wpop }

theorem walkFind_first (w : List ℕ) (target : ℚ) (fuel c : ℕ) (acc : ℚ)
    (h : target ≤ acc + (w.getD c 0 : ℚ)) :
    walkFind w target (fuel + 1) c acc = some c := by
  simp only [walkFind]
  rw [if_pos h]

theorem wpop_col : sampleOneCol wpop (totalWeight wpop) (mulberryVal 0) = 0 := by
  have htw : totalWeight wpop = 5 := by decide
  rw [htw]
  unfold sampleOneCol
  rw [if_neg (by norm_num)]
  unfold chooseBin
  have hcond : mulberryVal 0 * ((5 : ℕ) : ℚ) ≤ 0 + ((wpop.getD 0 0 : ℕ) : ℚ) := by
    rw [show wpop.getD 0 0 = 5 from rfl]
    have h1 := mulberryVal_lt_one 0
    have h0 := mulberryVal_nonneg 0
    push_cast
    nlinarith
  rw [show COLS = 59 + 1 from rfl]
  rw [walkFind_first wpop _ 59 0 0 hcond]
  rfl

theorem wpop_cols : (sampleNFrom wpop 0 1).2.1 = [0] := by
  rw [sampleNFrom_succ_cols, wpop_col]
  rfl

/-- The engine right after scheduling the witness draw. -/
def wE1 : Engine := startSampleE wpopEngine 1 100 0

/-- Witness for `draw_conservation`: on `wpopEngine` a draw of one element
(column 0), ticked once at `now = 1000` (emitting and landing the single
particle), ends with no plan, no in-flight particles, and tray sum 1. -/
theorem draw_conservation_witness :
    wpopEngine.midCounts = List.replicate COLS 0 ∧
    wpopEngine.sampleParticles = [] ∧
    wpopEngine.gatherTarget = none ∧
    ([((1 : ℚ), (1000 : ℚ))].foldl (fun e pr => tickE e pr.1 pr.2)
        (startSampleE wpopEngine 1 100 0)).emissionPlan = none ∧
    ([((1 : ℚ), (1000 : ℚ))].foldl (fun e pr => tickE e pr.1 pr.2)
        (startSampleE wpopEngine 1 100 0)).sampleParticles = [] ∧
    ([((1 : ℚ), (1000 : ℚ))].foldl (fun e pr => tickE e pr.1 pr.2)
        (startSampleE wpopEngine 1 100 0)).midCounts.sum = 1 := by
  have hfold : [((1 : ℚ), (1000 : ℚ))].foldl (fun e pr => tickE e pr.1 pr.2)
      (startSampleE wpopEngine 1 100 0) = tickE wE1 1 1000 := rfl
  have hplan1 : wE1.emissionPlan
      = some ⟨0, 0 + 100, 1, 0, [0], (sampleNFrom wpop 0 1).1⟩ := by
    show (startSampleE wpopEngine 1 100 0).emissionPlan = _
    unfold startSampleE scheduleEmission
    dsimp only
    rw [show wpopEngine.popCounts = wpop from rfl, show wpopEngine.rngT = 0 from rfl,
      wpop_cols]
    rfl
  have happly := emissionStep_finishes wE1 1000 ⟨0, 0 + 100, 1, 0, [0], (sampleNFrom wpop 0 1).1⟩
    hplan1 rfl rfl
    (by
      intro c hc
      rw [show (⟨0, 0 + 100, 1, 0, [0], (sampleNFrom wpop 0 1).1⟩ : EmissionPlan).cols = [0]
        from rfl] at hc
      rcases List.mem_singleton.mp hc with rfl
      norm_num [COLS])
    (by
      show (1 : ℚ) ≤ clampQ ((1000 - 0) / (0 + 100 - 0)) 0 1
      rw [show ((1000 : ℚ) - 0) / (0 + 100 - 0) = 10 by norm_num]
      unfold clampQ
      rw [min_eq_left (by norm_num), max_eq_right (by norm_num)])
  have hAplan : (emissionStep wE1 1000).emissionPlan = none := happly.1
  have hAsp := happly.2
  dsimp only at hAsp
  have hloop : (emitLoop wE1 [0] 1000 1 0 (inflightCounts wE1.sampleParticles)).1
      = [(emitParticle wE1 [0] 1000 0 (inflightCounts wE1.sampleParticles)).1] := by
    show (emitLoop wE1 [0] 1000 (0 + 1) 0 (inflightCounts wE1.sampleParticles)).1 = _
    rw [emitLoop_succ_lt wE1 [0] 1000 0 0 (inflightCounts wE1.sampleParticles) (by simp)]
    rfl
  rw [hloop] at hAsp
  rw [show wE1.sampleParticles = [] from rfl] at hAsp
  rw [List.nil_append] at hAsp
  have hPval : (emitParticle wE1 [0] 1000 0 (inflightCounts [])).1
      = { col := 0, x := 75 / 2, y := 256, vy := 0, targetY := 536 } := by
    unfold emitParticle colCenter
    dsimp only
    rw [show ([0] : List ℕ).getD 0 0 = 0 from rfl]
    rw [show wE1.popCounts = wpop from rfl, show wpop.getD 0 0 = 5 from rfl]
    rw [show wE1.midCounts = List.replicate COLS 0 from rfl]
    rw [show (List.replicate COLS (0 : ℕ)).getD 0 0 = 0 from by decide]
    rw [show (inflightCounts []).getD 0 0 = 0 from by decide]
    rw [show wE1.marginY = 8 from rfl, show wE1.H_TOP = 300 from rfl,
      show wE1.H_MID = 240 from rfl, show wE1.BOX_TOP_Y = 8 from rfl,
      show wE1.BOX_MID_Y = 8 from rfl, show wE1.gridX0 = 30 from rfl,
      show wE1.BOX = 15 from rfl]
    rw [if_pos (by norm_num)]
    simp only [SParticle.mk.injEq]
    norm_num
  rw [hPval] at hAsp
  have hg : (if wE1.speed = Speed.fast then (2400 : ℚ) else 1400) = 1400 := by
    rw [show wE1.speed = Speed.normal from rfl]
    rfl
  have hland : ¬min ((256 : ℚ) + (0 + 1400 * 1) * 1) 536 < 536 - 1 / 10 := by
    rw [min_eq_right (by norm_num)]
    norm_num
  have hef_sp : (tickE wE1 1 1000).sampleParticles = [] := by
    rw [(tickE_eq_core wE1 1 1000).2.2.2.2.1]
    unfold tickCore
    dsimp only
    show (gatherStep (settleSamplesStep (emissionStep wE1 1000)
        (if wE1.speed = Speed.fast then 2400 else 1400) 1) 1000).sampleParticles = []
    rw [(gatherStep_preserves _ _).2.1]
    rw [show (settleSamplesStep (emissionStep wE1 1000)
        (if wE1.speed = Speed.fast then 2400 else 1400) 1).sampleParticles
      = (settleStep (if wE1.speed = Speed.fast then 2400 else 1400) 1
          (emissionStep wE1 1000).sampleParticles (emissionStep wE1 1000).midCounts).1
      from rfl]
    rw [hg, hAsp]
    rw [settleStep_cons_land 1400 1 _ [] _ (by
      show ¬min ((256 : ℚ) + ((0 : ℚ) + 1400 * 1) * 1) 536 < 536 - 1 / 10
      exact hland)]
    rfl
  have hef_plan : (tickE wE1 1 1000).emissionPlan = none := by
    rw [(tickE_eq_core wE1 1 1000).2.2.2.2.2.1]
    unfold tickCore
    dsimp only
    show (gatherStep (settleSamplesStep (emissionStep wE1 1000)
        (if wE1.speed = Speed.fast then 2400 else 1400) 1) 1000).emissionPlan = none
    rw [(gatherStep_preserves _ _).1]
    rw [show (settleSamplesStep (emissionStep wE1 1000)
        (if wE1.speed = Speed.fast then 2400 else 1400) 1).emissionPlan
      = (emissionStep wE1 1000).emissionPlan from rfl]
    exact hAplan
  have hplanF : ([((1 : ℚ), (1000 : ℚ))].foldl (fun e pr => tickE e pr.1 pr.2)
      (startSampleE wpopEngine 1 100 0)).emissionPlan = none := by
    rw [hfold]
    exact hef_plan
  have hpartF : ([((1 : ℚ), (1000 : ℚ))].foldl (fun e pr => tickE e pr.1 pr.2)
      (startSampleE wpopEngine 1 100 0)).sampleParticles = [] := by
    rw [hfold]
    exact hef_sp
  exact ⟨rfl, rfl, rfl, hplanF, hpartF,
    draw_conservation wpopEngine 1 100 0 [(1, 1000)] rfl rfl rfl hplanF hpartF⟩

/-! ## Claim C3: auto-gather-before-redraw vs. the 100 ms timer -/

/-- An engine state holding an uncommitted sample of one value. -/
def pendingSampleEngine : Engine := { initEngine 0 with lastSample := [1 / 2] }

theorem pendingSampleEngine_busy :
    pendingSampleEngine.lastSample ≠ [] ∨ hasSampleInMid pendingSampleEngine = true := by
  left
  simp [pendingSampleEngine, initEngine]

/-- C3 counterexample: a redraw requested at `t = 0` with an uncommitted
sample starts the gather and schedules the new emission at `t = 100`
(the source's fixed `setTimeout` delay), although the gather lasts 260 ms;
at the `t = 150` tick the engine is simultaneously gathering and holding
an active emission plan — a reachable state the claim says cannot exist. -/
theorem gather_and_new_emission_overlap :
    (drawSampleWithAutoCalculateE pendingSampleEngine 0 2 1000).2 = some 100 ∧
    (tickE (startSampleE (drawSampleWithAutoCalculateE pendingSampleEngine 0 2 1000).1
        2 1000 (0 + 100)) 1 (0 + 150)).gathering = true ∧
    (tickE (startSampleE (drawSampleWithAutoCalculateE pendingSampleEngine 0 2 1000).1
        2 1000 (0 + 100)) 1 (0 + 150)).emissionPlan ≠ none := by
  have h := overlap_core pendingSampleEngine 0 2 1000 1 pendingSampleEngine_busy rfl
    (by norm_num) (by norm_num)
  refine ⟨?_, h.2.1, h.2.2⟩
  rw [h.1]
  norm_num

/-- C3 (amended): on a redraw with a non-empty tray the scheduler does
start the gather first, but the new Emission Plan does not wait for the
gather to complete: it is created a fixed 100 ms after the request (the
`setTimeout` delay) while the gather runs for 260 ms, so from 100 ms to
260 ms after the request a Gather Operation and the new Emission Plan are
active simultaneously; when the tray is empty the emission starts
immediately with no gather. -/
theorem auto_gather_before_redraw (e : Engine) (t0 : ℚ) (n : ℕ) (d dt : ℚ) :
    ((e.lastSample ≠ [] ∨ hasSampleInMid e = true) → e.gatherDur = 260 → 0 < n → 50 < d →
      (drawSampleWithAutoCalculateE e t0 n d).1 = calcWithGatherE e t0 ∧
      (drawSampleWithAutoCalculateE e t0 n d).2 = some (t0 + 100) ∧
      (tickE (startSampleE (drawSampleWithAutoCalculateE e t0 n d).1 n d (t0 + 100))
          dt (t0 + 150)).gathering = true ∧
      (tickE (startSampleE (drawSampleWithAutoCalculateE e t0 n d).1 n d (t0 + 100))
          dt (t0 + 150)).emissionPlan ≠ none) ∧
    (¬(e.lastSample ≠ [] ∨ hasSampleInMid e = true) →
      drawSampleWithAutoCalculateE e t0 n d = (startSampleE e n d t0, none)) := by
  constructor
  · intro hbusy hdur hn hd
    have h := overlap_core e t0 n d dt hbusy hdur hn hd
    refine ⟨?_, h.1, h.2.1, h.2.2⟩
    unfold drawSampleWithAutoCalculateE
    rw [if_pos hbusy]
  · intro hfree
    unfold drawSampleWithAutoCalculateE
    rw [if_neg hfree]

/-- Witness for `auto_gather_before_redraw`: the busy branch at a concrete
request time, and the empty-tray branch on the initial engine. -/
theorem auto_gather_before_redraw_witness :
    ((pendingSampleEngine.lastSample ≠ [] ∨ hasSampleInMid pendingSampleEngine = true) ∧
      pendingSampleEngine.gatherDur = 260 ∧ 0 < 3 ∧ (50 : ℚ) < 500 ∧
      (drawSampleWithAutoCalculateE pendingSampleEngine 10 3 500).1
          = calcWithGatherE pendingSampleEngine 10 ∧
      (drawSampleWithAutoCalculateE pendingSampleEngine 10 3 500).2 = some (10 + 100) ∧
      (tickE (startSampleE (drawSampleWithAutoCalculateE pendingSampleEngine 10 3 500).1
          3 500 (10 + 100)) 2 (10 + 150)).gathering = true ∧
      (tickE (startSampleE (drawSampleWithAutoCalculateE pendingSampleEngine 10 3 500).1
          3 500 (10 + 100)) 2 (10 + 150)).emissionPlan ≠ none) ∧
    (¬((initEngine 0).lastSample ≠ [] ∨ hasSampleInMid (initEngine 0) = true) ∧
      drawSampleWithAutoCalculateE (initEngine 0) 10 3 500
        = (startSampleE (initEngine 0) 3 500 10, none)) := by
  have hfree : ¬((initEngine 0).lastSample ≠ [] ∨ hasSampleInMid (initEngine 0) = true) := by
    intro h
    rcases h with h | h
    · exact h rfl
    · simp [hasSampleInMid, initEngine] at h
  have h1 := (auto_gather_before_redraw pendingSampleEngine 10 3 500 2).1
    pendingSampleEngine_busy rfl (by norm_num) (by norm_num)
  have h2 := (auto_gather_before_redraw (initEngine 0) 10 3 500 2).2 hfree
  exact ⟨⟨pendingSampleEngine_busy, rfl, by norm_num, by norm_num,
    h1.1, h1.2.1, h1.2.2.1, h1.2.2.2⟩, ⟨hfree, h2⟩⟩

/-! ## Claim C2: when the sample tray is cleared during a gather -/

/-- An engine state whose sample tray histogram holds a single landed
value in column 0. -/
def oneTrayEngine : Engine := { initEngine 0 with midCounts := 1 :: List.replicate 59 0 }

/-- An engine state with an active gather converging on bin 3. -/
def activeGatherEngine : Engine :=
  { initEngine 0 with gathering := true, gatherTarget := some ⟨0, 0, 3⟩ }

theorem oneTrayEngine_busy :
    ¬(oneTrayEngine.lastSample = [] ∧ hasSampleInMid oneTrayEngine = false) := by
  intro hcontra
  have := hcontra.2
  simp [hasSampleInMid, oneTrayEngine, initEngine] at this

/-- C2 counterexample: starting a gather on an engine whose tray holds one
landed value clears the tray histogram immediately — while the gather
interpolation is still `0 < 1`, i.e. before the gather completes — so the
tray does not "still hold the gathered sample's counts" during the
animation. -/
theorem tray_cleared_at_gather_start :
    (calcWithGatherE oneTrayEngine 0).gathering = true ∧
    (calcWithGatherE oneTrayEngine 0).midCounts = List.replicate COLS 0 ∧
    clampQ ((0 - (calcWithGatherE oneTrayEngine 0).gatherStart) /
      (calcWithGatherE oneTrayEngine 0).gatherDur) 0 1 < 1 := by
  obtain ⟨h1, h2, h3, h4, -⟩ := calcWithGather_busy oneTrayEngine 0 oneTrayEngine_busy
  refine ⟨h1, h2, ?_⟩
  rw [h3, h4]
  show clampQ ((0 - 0) / (initEngine 0).gatherDur) 0 1 < 1
  norm_num [initEngine, clampQ]

/-- C2 (amended): the sample-tray histogram is cleared at the *start* of
the gather (`calculateWithGather` snapshots the tray into gather particles
and zeroes the histogram immediately); while the interpolation is below 1
nothing further happens to it; when the interpolation reaches 1 exactly
one new particle is spawned falling toward the resolved
sampling-distribution bin and the gather state is cleared. -/
theorem gather_clears_tray_at_start (e : Engine) (now : ℚ) (gt : GatherTarget) :
    (¬(e.lastSample = [] ∧ hasSampleInMid e = false) →
      (calcWithGatherE e now).midCounts = List.replicate COLS 0 ∧
      (calcWithGatherE e now).gathering = true) ∧
    (e.gathering = true → e.gatherTarget = some gt →
      clampQ ((now - e.gatherStart) / e.gatherDur) 0 1 < 1 →
      (gatherStep e now).midCounts = e.midCounts ∧
      (gatherStep e now).statParticles = e.statParticles ∧
      (gatherStep e now).gathering = true) ∧
    (e.gathering = true → e.gatherTarget = some gt →
      1 ≤ clampQ ((now - e.gatherStart) / e.gatherDur) 0 1 →
      (gatherStep e now).statParticles.length = e.statParticles.length + 1 ∧
      (∃ p, (gatherStep e now).statParticles = e.statParticles ++ [p] ∧ p.bin = gt.bin) ∧
      (gatherStep e now).gathering = false) := by
  refine ⟨?_, ?_, ?_⟩
  · intro h
    obtain ⟨h1, h2, -⟩ := calcWithGather_busy e now h
    exact ⟨h2, h1⟩
  · intro hg hgt hlt
    obtain ⟨a, b, c, d, -⟩ := gatherStep_in_progress e now gt hg hgt hlt
    exact ⟨d, c, a⟩
  · intro hg hgt hge
    obtain ⟨a, b, c, -⟩ := gatherStep_completes e now gt hg hgt hge
    exact ⟨a, b, c⟩

/-- Witness for `gather_clears_tray_at_start`: a gather started on a tray
holding one value, and a crafted active gather observed at its deadline. -/
theorem gather_clears_tray_at_start_witness :
    (¬(oneTrayEngine.lastSample = [] ∧ hasSampleInMid oneTrayEngine = false)) ∧
    (calcWithGatherE oneTrayEngine 7).midCounts = List.replicate COLS 0 ∧
    (calcWithGatherE oneTrayEngine 7).gathering = true ∧
    activeGatherEngine.gathering = true ∧
    activeGatherEngine.gatherTarget = some ⟨0, 0, 3⟩ ∧
    1 ≤ clampQ ((300 - activeGatherEngine.gatherStart) / activeGatherEngine.gatherDur) 0 1 ∧
    (gatherStep activeGatherEngine 300).statParticles.length
      = activeGatherEngine.statParticles.length + 1 := by
  have hge : (1 : ℚ) ≤ clampQ ((300 - activeGatherEngine.gatherStart) /
      activeGatherEngine.gatherDur) 0 1 := by
    show (1 : ℚ) ≤ clampQ ((300 - 0) / 260) 0 1
    rw [show ((300 : ℚ) - 0) / 260 = 15 / 13 by norm_num]
    rw [show clampQ (15 / 13) 0 1 = 1 by rw [clampQ, min_eq_left (by norm_num)]; norm_num]
  have hpart1 := (gather_clears_tray_at_start oneTrayEngine 7 ⟨0, 0, 3⟩).1 oneTrayEngine_busy
  have hpart3 := (gather_clears_tray_at_start activeGatherEngine 300 ⟨0, 0, 3⟩).2.2 rfl rfl hge
  exact ⟨oneTrayEngine_busy, hpart1.1, hpart1.2, rfl, rfl, hge, hpart3.1⟩

/-! ## Claim C8: what clearing and resetting actually abort -/

/-- C8 counterexample: `resetExperiment` leaves an in-flight emission plan
running (the claim says resetting aborts any in-flight Emission Plan), and
`clearTray` leaves falling statistic particles alive (which will still
commit their histogram increment). -/
theorem reset_keeps_emission_clear_keeps_stat_particles :
    (resetExperimentE { initEngine 0 with
        emissionPlan := some { start := 0, endTime := 100, total := 2, emitted := 0,
                               cols := [3, 4], xs := [] } }).emissionPlan ≠ none ∧
    (clearTrayE { initEngine 0 with
        statParticles := [{ x := 0, y := 0, vy := 0, targetY := 10, bin := 5 }] }).statParticles
      ≠ [] := by
  constructor
  · show some _ ≠ none
    simp
  · show [({ x := 0, y := 0, vy := 0, targetY := 10, bin := 5 } : BParticle)] ≠ []
    simp

/-! ## Claim C6: determinism

`applyGenerator` and the operation list below model the engine's public
mutators; everything is a pure function of the seed and the operations. -/

inductive GenName
  | normal
  | uniform
  | bimodal
  | lognormal
  deriving DecidableEq, Repr

/-- The analytic population shapes of `applyGenerator`, evaluated at a
bin-center coordinate. -/
noncomputable def genWeight : GenName → ℚ → ℝ
  | .normal, x => Real.exp (-(0.5) * (((x : ℝ) - 0.5) / 0.16) ^ 2)
  | .uniform, _ => 1
  | .bimodal, x =>
      0.55 * Real.exp (-(0.5) * (((x : ℝ) - 0.32) / 0.07) ^ 2) +
        0.45 * Real.exp (-(0.5) * (((x : ℝ) - 0.72) / 0.07) ^ 2)
  | .lognormal, x =>
      Real.exp (-(0.5) * ((Real.log (max 0.0001 (x : ℝ)) - Real.log 0.3) / 0.6) ^ 2) /
        max (x : ℝ) 0.0001

/-- `applyGenerator(name)`: `counts[c] = Math.max(0, Math.round(w * 20))`
at each bin center. -/
noncomputable def applyGeneratorE (e : Engine) (g : GenName) : Engine :=
  let pc := (List.range COLS).map
    (fun c => (max 0 (round (genWeight g (binCenter c) * 20))).toNat)
  { e with popCounts := pc, needsRedraw := true }

/-- The engine mutators the UI can invoke, with explicit timestamps. -/
inductive Op
  | applyGen (g : GenName)
  | setStatistic (s : Stat)
  | setThreshold (q : ℚ)
  | startSample (n : ℕ) (dropMs now : ℚ)
  | tick (dt now : ℚ)
  | calcGather (now : ℚ)
  | drawAuto (now : ℚ) (n : ℕ) (dropMs : ℚ)
  | clearTray
  | resetExperiment
  | repeatTurbo (n : ℕ)

noncomputable def applyOp (e : Engine) : Op → Engine
  | .applyGen g => applyGeneratorE e g
  | .setStatistic s => { e with statistic := s }
  | .setThreshold q => { e with threshold := q }
  | .startSample n d now => startSampleE e n d now
  | .tick dt now => tickE e dt now
  | .calcGather now => calcWithGatherE e now
  | .drawAuto now n d => (drawSampleWithAutoCalculateE e now n d).1
  | .clearTray => clearTrayE e
  | .resetExperiment => resetExperimentE e
  | .repeatTurbo n => handleRepeatTurboE e n

noncomputable def runOps (e : Engine) : List Op → Engine
  | [] => e
  | op :: ops => runOps (applyOp e op) ops

/-- C6 (confirmed): the RNG stream and the whole engine are pure functions
of the seed and the operation sequence — two streams created with the same
seed produce identical value sequences, and two engines seeded alike that
execute the same operations end with bit-identical population, sample-tray
and sampling-distribution histograms. -/
theorem engine_deterministic (s1 s2 : ℕ) (ops : List Op) (h : s1 = s2) :
    (∀ k, rngValAt s1 k = rngValAt s2 k) ∧
    (runOps (initEngine s1) ops).popCounts = (runOps (initEngine s2) ops).popCounts ∧
    (runOps (initEngine s1) ops).midCounts = (runOps (initEngine s2) ops).midCounts ∧
    (runOps (initEngine s1) ops).botCounts = (runOps (initEngine s2) ops).botCounts := by
  subst h
  exact ⟨fun _ => rfl, rfl, rfl, rfl⟩

/-- Witness for `engine_deterministic` at seed 1234 with a concrete
operation sequence. -/
theorem engine_deterministic_witness :
    (1234 : ℕ) = 1234 ∧
    ((∀ k, rngValAt 1234 k = rngValAt 1234 k) ∧
      (runOps (initEngine 1234) [Op.setStatistic .sd, Op.repeatTurbo 5]).popCounts
        = (runOps (initEngine 1234) [Op.setStatistic .sd, Op.repeatTurbo 5]).popCounts ∧
      (runOps (initEngine 1234) [Op.setStatistic .sd, Op.repeatTurbo 5]).midCounts
        = (runOps (initEngine 1234) [Op.setStatistic .sd, Op.repeatTurbo 5]).midCounts ∧
      (runOps (initEngine 1234) [Op.setStatistic .sd, Op.repeatTurbo 5]).botCounts
        = (runOps (initEngine 1234) [Op.setStatistic .sd, Op.repeatTurbo 5]).botCounts) :=
  ⟨rfl, engine_deterministic 1234 1234 [Op.setStatistic .sd, Op.repeatTurbo 5] rfl⟩

/-- C8 (amended): `clearTray` zeroes the tray, discards the sample, the
in-flight sample particles, any emission plan, and the gather particles
and flag — without committing any histogram increment — but leaves the
statistic particles and the sampling distribution untouched;
`resetExperiment` zeroes every sampling-distribution bin and discards
falling statistic particles without committing them, but does not abort an
emission plan, the sample particles, or an active gather. -/
theorem clear_and_reset_effects (e : Engine) :
    (clearTrayE e).midCounts = List.replicate COLS 0 ∧
    (clearTrayE e).lastSample = [] ∧
    (clearTrayE e).sampleParticles = [] ∧
    (clearTrayE e).emissionPlan = none ∧
    (clearTrayE e).gatherParticles = [] ∧
    (clearTrayE e).gathering = false ∧
    (clearTrayE e).statParticles = e.statParticles ∧
    (clearTrayE e).botCounts = e.botCounts ∧
    (clearTrayE e).popCounts = e.popCounts ∧
    (resetExperimentE e).botCounts = List.replicate STAT_BINS 0 ∧
    (resetExperimentE e).statParticles = [] ∧
    (resetExperimentE e).emissionPlan = e.emissionPlan ∧
    (resetExperimentE e).sampleParticles = e.sampleParticles ∧
    (resetExperimentE e).gathering = e.gathering ∧
    (resetExperimentE e).midCounts = e.midCounts ∧
    (resetExperimentE e).popCounts = e.popCounts :=
  ⟨rfl, rfl, rfl, rfl, rfl, rfl, rfl, rfl, rfl, rfl, rfl, rfl, rfl, rfl, rfl, rfl⟩

end Xbar
